import Mathlib

/-! LLGL: SPIR-V module header and Vulkan shader binding layout

A shallow embedding of `sources/Renderer/SPIRV/SpirvModule.cpp` and
`sources/Renderer/Vulkan/Shader/VKShaderBindingLayout.cpp`, and of the
composition and reflection contracts declared in `include/LLGL/ShaderProgram.h`.

Conventions of the embedding:
* a `std::uint32_t` value is a `Nat`; the code only copies and compares such
  values, except for the change counter of `AssignBindingSlots`, which is
  incremented and therefore reduced modulo `2 ^ 32`;
* memory reached through a `std::uint32_t*` is the `List Nat` of the words
  that start at the pointer;
* an out-parameter or a member that a function may modify is passed in and
  returned.
-/

namespace LLGL

/-! ## SpirvModule.cpp -/

/-- Modelled from the spec: the enumeration `SpirvResult` is declared in
`SpirvModule.h`, which is not among the sources; the constructors are the
outcomes that the specification names for the header check and that the
embedded code returns or tests. -/
inductive SpirvResult where
  | Success
  | InvalidModule
  | InvalidHeader
  deriving DecidableEq, Repr

/-- Modelled from the spec: the struct `SpirvHeader` is declared in
`SpirvModule.h`, which is not among the sources; the specification lists its
five 32-bit fields (magic number, version, generator id, bound, schema). -/
structure SpirvHeader where
  spirvMagic : Nat
  spirvVersion : Nat
  generatorMagic : Nat
  idBound : Nat
  schema : Nat
  deriving DecidableEq, Repr

/-- The value of `sizeof(SpirvHeader)/sizeof(std::uint32_t)`: the five fields
of `SpirvHeader`, one word each. -/
def SpirvHeaderWords : Nat := 5

/-- The `*header` read of `ReadSpirvHeader`: the leading words of the array
seen as a `SpirvHeader`. -/
def headerOfWords (words : List Nat) : SpirvHeader :=
  { spirvMagic := words.getD 0 0
    spirvVersion := words.getD 1 0
    generatorMagic := words.getD 2 0
    idBound := words.getD 3 0
    schema := words.getD 4 0 }

/-- The static function `ReadSpirvHeader`. `MagicNumber` stands for the
constant `spv::MagicNumber` of the SPIR-V headers, `outHeader` for the
caller's header object; the second component of the result is that object
after the call. -/
def ReadSpirvHeader (MagicNumber : Nat) (words : List Nat) (wordCount : Nat)
    (outHeader : SpirvHeader) : SpirvResult × SpirvHeader :=
  if wordCount < SpirvHeaderWords then
    (SpirvResult.InvalidModule, outHeader)
  else if (headerOfWords words).spirvMagic ≠ MagicNumber then
    (SpirvResult.InvalidHeader, outHeader)
  else
    (SpirvResult.Success, headerOfWords words)

/-- The class `SpirvModule`: it owns its words. -/
structure SpirvModule where
  words_ : List Nat
  deriving DecidableEq, Repr

/-- The class `SpirvModuleView`: a view of words owned elsewhere. -/
structure SpirvModuleView where
  words_ : List Nat
  deriving DecidableEq, Repr

/-- The view of a byte buffer as 32-bit words that the `reinterpret_cast` of
the constructors takes: every four bytes make one word, and an incomplete
group at the end makes none. `pack` is the platform's way of reading four
consecutive bytes as a `std::uint32_t`. -/
def wordsOfBytes (pack : Nat → Nat → Nat → Nat → Nat) : List Nat → List Nat
  | b0 :: b1 :: b2 :: b3 :: rest => pack b0 b1 b2 b3 :: wordsOfBytes pack rest
  | _ => []

/-- The constructor `SpirvModule(const void* data, size_type size)`: the words
from `data` up to `data + size/sizeof(value_type)`. -/
def SpirvModule.ofData (data : List Nat) (size : Nat) : SpirvModule :=
  { words_ := data.take (size / 4) }

/-- The constructor `SpirvModuleView(const void* data, std::size_t size)`: a
view of `size/sizeof(value_type)` words at `data`. -/
def SpirvModuleView.ofData (data : List Nat) (size : Nat) : SpirvModuleView :=
  { words_ := data.take (size / 4) }

/-- The method `SpirvModule::ReadHeader`. -/
def SpirvModule.ReadHeader (MagicNumber : Nat) (m : SpirvModule)
    (outHeader : SpirvHeader) : SpirvResult × SpirvHeader :=
  ReadSpirvHeader MagicNumber m.words_ m.words_.length outHeader

/-- The method `SpirvModuleView::ReadHeader`. -/
def SpirvModuleView.ReadHeader (MagicNumber : Nat) (m : SpirvModuleView)
    (outHeader : SpirvHeader) : SpirvResult × SpirvHeader :=
  ReadSpirvHeader MagicNumber m.words_ m.words_.length outHeader

/-! ## VKShaderBindingLayout.cpp -/

/-- Modelled from the spec: the struct `SpirvReflect::SpvBindingPoint` is
declared in `SpirvReflect.h`, which is not among the sources; the
specification gives a reflected binding point as descriptor set, binding and
the word offsets at which the two numbers are encoded in the module. -/
structure SpvBindingPoint where
  set : Nat
  binding : Nat
  setWordOffset : Nat
  bindingWordOffset : Nat
  deriving DecidableEq, Repr

/-- Modelled from the spec: the struct `ModuleBinding` is declared in
`VKShaderBindingLayout.h`, which is not among the sources; the fields are the
six that `BuildFromSpirvModule` assigns. -/
structure ModuleBinding where
  srcDescriptorSet : Nat
  srcBinding : Nat
  dstDescriptorSet : Nat
  dstBinding : Nat
  spirvDescriptorSet : Nat
  spirvBinding : Nat
  deriving DecidableEq, Repr, Inhabited

/-- Modelled from the spec: the struct `BindingSlot` is declared in a public
header that is not among the sources; `AssignBindingSlots` reads its members
`set` and `index`. -/
structure BindingSlot where
  set : Nat
  index : Nat
  deriving DecidableEq, Repr

/-- The lambda `ConvertBindingPoint` of `BuildFromSpirvModule`: `dst` after the
six assignments. -/
def ConvertBindingPoint (dst : ModuleBinding) (src : SpvBindingPoint) : ModuleBinding :=
  { dst with
    srcDescriptorSet := src.set
    srcBinding := src.binding
    dstDescriptorSet := src.set
    dstBinding := src.binding
    spirvDescriptorSet := src.setWordOffset
    spirvBinding := src.bindingWordOffset }

/-- The comparison lambda handed to `std::sort` in `BuildFromSpirvModule`. -/
def sortLess (lhs rhs : ModuleBinding) : Bool :=
  if lhs.srcDescriptorSet < rhs.srcDescriptorSet then true
  else if lhs.srcDescriptorSet > rhs.srcDescriptorSet then false
  else decide (lhs.dstBinding < rhs.dstBinding)

/-- The order that `std::sort` establishes for the comparison `sortLess`: no
element is followed by one that compares less than it. -/
def sortLe (a b : ModuleBinding) : Prop := sortLess b a = false

instance : DecidableRel sortLe := fun a b => inferInstanceAs (Decidable (sortLess b a = false))

/-- The effect of `std::vector::resize(n)` on the element list: longer vectors
are cut, shorter ones are filled with value-initialised elements. -/
def vectorResize (v : List ModuleBinding) (n : Nat) : List ModuleBinding :=
  v.take n ++ List.replicate (n - v.length) default

/-- The call `std::sort(bindings_.begin(), bindings_.end(), sortLess)`. The
standard requires a sorted rearrangement and leaves the order of equivalent
elements open; the embedding takes the one that insertion sort produces. -/
def stdSort (v : List ModuleBinding) : List ModuleBinding :=
  v.insertionSort sortLe

/-- The method `VKShaderBindingLayout::BuildFromSpirvModule`.
`LLGL_ENABLE_SPIRV_REFLECT` tells whether the preprocessor symbol of that name
is defined. `SpirvReflectBindingPoints` is the reflector, a function that is
not among the sources: it receives the module view and returns its result code
together with the binding points it stored. `bindings_` is the member before
the call; the result is the returned flag and the member after the call. -/
def BuildFromSpirvModule (LLGL_ENABLE_SPIRV_REFLECT : Bool)
    (SpirvReflectBindingPoints : SpirvModuleView → SpirvResult × List SpvBindingPoint)
    (bindings_ : List ModuleBinding) (data : List Nat) (size : Nat) :
    Bool × List ModuleBinding :=
  if LLGL_ENABLE_SPIRV_REFLECT then
    let reflected := SpirvReflectBindingPoints (SpirvModuleView.ofData data size)
    let result := reflected.1
    let bindingPoints := reflected.2
    if result ≠ SpirvResult.Success then
      (false, bindings_)
    else
      let resized := vectorResize bindings_ bindingPoints.length
      let converted := List.zipWith ConvertBindingPoint resized bindingPoints
      (true, stdSort converted)
  else
    (false, bindings_)

/-- Modelled from the spec: the macro `LLGL_COMPARE_SEPARATE_MEMBERS_SWO` is
defined in `Core/MacroUtils.h`, which is not among the sources. The
specification describes the search predicate as a three-way compare of the
request with an entry, `srcDescriptorSet` first and `srcBinding` second: the
result is negative when the request is ordered before the entry, positive when
it is ordered after it, and zero when both members agree. This is the lambda
that `AssignBindingSlots` passes to `FindInSortedArray`. -/
def compareSlot (slot : BindingSlot) (entry : ModuleBinding) : Int :=
  if slot.set < entry.srcDescriptorSet then -1
  else if slot.set > entry.srcDescriptorSet then 1
  else if slot.index < entry.srcBinding then -1
  else if slot.index > entry.srcBinding then 1
  else 0

/-- Modelled from the spec: the loop of the binary search of
`FindInSortedArray`, a function template of `Core/CoreUtils.h` that is not
among the sources. The search looks at the middle of the index range
`first ≤ i < last`, returns its index when `compare` is zero there, and goes on
in the upper half when `compare` is positive and in the lower half when it is
negative; `fuel` bounds the number of iterations. -/
def findLoop (data : List ModuleBinding) (compare : ModuleBinding → Int) :
    Nat → Nat → Nat → Option Nat
  | 0, _, _ => none
  | fuel + 1, first, last =>
    if first < last then
      let index := (first + last) / 2
      match data[index]? with
      | none => none
      | some entry =>
        let order := compare entry
        if order > 0 then findLoop data compare fuel (index + 1) last
        else if order < 0 then findLoop data compare fuel first index
        else some index
    else none

/-- Modelled from the spec: the function template `FindInSortedArray` is
defined in `Core/CoreUtils.h`, which is not among the sources. The
specification says that the sorted binding list is binary-searched with a
three-way compare for an entry that matches the request; the model is the
binary search over the whole array, which returns the index of an entry on
which `compare` is zero, or `none` for the null pointer. Every iteration
shrinks the index range, so `data.length` iterations always suffice. -/
def FindInSortedArray (data : List ModuleBinding) (compare : ModuleBinding → Int) :
    Option Nat :=
  findLoop data compare data.length 0 data.length

/-- The private method `VKShaderBindingLayout::AssignBindingSlot`. The pointer
parameter `dstBinding` is `none` for `nullptr` and otherwise holds the value it
points to. The expression `*dstBinding++` reads that value and then advances
the parameter itself, which is a local copy of the pointer: the counter it
points to keeps its value, so only the entry and the flag are returned. -/
def AssignBindingSlot (binding : ModuleBinding) (_slot : BindingSlot) (dstSet : Nat)
    (dstBinding : Option Nat) : ModuleBinding × Bool :=
  let r1 : ModuleBinding × Bool :=
    if binding.dstDescriptorSet ≠ dstSet then
      ({ binding with dstDescriptorSet := dstSet }, true)
    else
      (binding, false)
  match dstBinding with
  | some value =>
    if r1.1.dstBinding ≠ value then
      ({ r1.1 with dstBinding := value }, true)
    else
      r1
  | none => r1

/-- One iteration of the `while` loop of `AssignBindingSlots`. The state is the
member `bindings_` and the local `numBindings`; `dstBinding` is the value of the
local counter of that name. -/
def assignStep (dstSet : Nat) (dstBindingInAscendingOrder : Bool) (dstBinding : Nat)
    (state : List ModuleBinding × Nat) (slot : BindingSlot) : List ModuleBinding × Nat :=
  match FindInSortedArray state.1 (compareSlot slot) with
  | none => state
  | some i =>
    match state.1[i]? with
    | none => state
    | some binding =>
      let r := AssignBindingSlot binding slot dstSet
        (if dstBindingInAscendingOrder then some dstBinding else none)
      (state.1.set i r.1, if r.2 then (state.2 + 1) % 4294967296 else state.2)

/-- The method `VKShaderBindingLayout::AssignBindingSlots`. The iterator is the
list of the slots it yields; the result is the returned count and the member
`bindings_` after the call. -/
def AssignBindingSlots (bindings_ : List ModuleBinding) (iter : List BindingSlot)
    (dstSet : Nat) (dstBindingInAscendingOrder : Bool) : Nat × List ModuleBinding :=
  let dstBinding := 0
  let final := iter.foldl (assignStep dstSet dstBindingInAscendingOrder dstBinding)
    (bindings_, 0)
  (final.2, final.1)

/-- One iteration of the loop of `UpdateSpirvModule`: the two guarded stores
for one binding. -/
def updateStep (numWords : Nat) (words : List Nat) (binding : ModuleBinding) : List Nat :=
  let words1 :=
    if binding.spirvDescriptorSet < numWords then
      words.set binding.spirvDescriptorSet binding.dstDescriptorSet
    else words
  if binding.spirvBinding < numWords then
    words1.set binding.spirvBinding binding.dstBinding
  else words1

/-- The method `VKShaderBindingLayout::UpdateSpirvModule`: `data` is the word
sequence that starts at the pointer, `size` the byte size passed by the caller;
the result is the word sequence after the call. -/
def UpdateSpirvModule (bindings_ : List ModuleBinding) (data : List Nat) (size : Nat) :
    List Nat :=
  let numWords := size / 4
  bindings_.foldl (updateStep numWords) data

/-! ## ShaderProgram.h -/

/-- The enumeration `ShaderProgram::LinkError`. -/
inductive LinkError where
  | NoError
  | InvalidComposition
  | InvalidByteCode
  | TooManyAttachments
  | IncompleteAttachments
  deriving DecidableEq, Repr

/-- Modelled from the spec: the shader stages are declared in `Shader.h`, which
is not among the sources; the specification lists vertex, tessellation
control (hull), tessellation evaluation (domain), geometry, fragment (pixel)
and compute. A `Shader` object is represented by its stage, the value of
`Shader::GetType`. -/
inductive ShaderStage where
  | Vertex
  | TessControl
  | TessEval
  | Geometry
  | Fragment
  | Compute
  deriving DecidableEq, Repr

/-- Modelled from the spec: the enumeration `ResourceType` is declared in a
header that is not among the sources; the specification names constant buffer,
storage buffer, texture and sampler. The numeric order of the enumerators is
given nowhere, so the functions that compare types take it as the parameter
`rank`. -/
inductive ResourceType where
  | ConstantBuffer
  | StorageBuffer
  | Texture
  | Sampler
  deriving DecidableEq, Repr

/-- Modelled from the spec: the struct `ShaderReflectionDescriptor::ResourceView`
is declared in a header that is not among the sources; the specification gives
a resource view as a resource type and a binding slot. -/
structure ResourceView where
  type : ResourceType
  slot : Nat
  deriving DecidableEq, Repr

/-- Modelled from the spec: the comparison by which `FinalizeShaderReflection`
sorts, whose code (`ShaderProgram.cpp`) is not among the sources. The
specification and the documentation of `QueryReflectionDesc` give the resource
type in descending order as first criterion and the binding slot in descending
order as second: `lhs` goes before `rhs` when its type is greater, or the types
are equal and its slot is greater. -/
def resourceViewBefore (rank : ResourceType → Nat) (lhs rhs : ResourceView) : Bool :=
  if rank lhs.type > rank rhs.type then true
  else if rank lhs.type < rank rhs.type then false
  else decide (lhs.slot > rhs.slot)

/-- The order that a sort with the comparison `resourceViewBefore` establishes:
no element is followed by one that goes before it. -/
def resourceViewLe (rank : ResourceType → Nat) (a b : ResourceView) : Prop :=
  resourceViewBefore rank b a = false

instance (rank : ResourceType → Nat) : DecidableRel (resourceViewLe rank) :=
  fun a b => inferInstanceAs (Decidable (resourceViewBefore rank b a = false))

/-- Modelled from the spec: the static method
`ShaderProgram::FinalizeShaderReflection` is declared in `ShaderProgram.h`, but
its code (`ShaderProgram.cpp`) is not among the sources. The specification says
that it sorts the resource views of the reflection descriptor stably by
resource type descending, then by binding slot descending; the model is the
stable insertion sort of the list `resourceViews` with `resourceViewBefore`. -/
def FinalizeShaderReflection (rank : ResourceType → Nat) (resourceViews : List ResourceView) :
    List ResourceView :=
  resourceViews.insertionSort (resourceViewLe rank)

/-- Modelled from the spec: the link error that the composition rules of the
specification give to an array of attachments; the code that applies the rules
(`ShaderProgram.cpp` and the back ends) is not among the sources. Null entries
are ignored. A compute shader together with any other stage is
`InvalidComposition`; otherwise a stage that occurs twice is
`TooManyAttachments`; otherwise a graphics stage without a vertex shader is
`IncompleteAttachments`; otherwise there is no error. -/
def compositionError (shaders : List (Option ShaderStage)) : LinkError :=
  let attached := shaders.reduceOption
  if ShaderStage.Compute ∈ attached ∧ attached.any (fun s => s != ShaderStage.Compute) then
    LinkError.InvalidComposition
  else if ¬ attached.Nodup then
    LinkError.TooManyAttachments
  else if attached.any (fun s => s != ShaderStage.Compute) ∧ ShaderStage.Vertex ∉ attached then
    LinkError.IncompleteAttachments
  else
    LinkError.NoError

/-- Modelled from the spec: the method `ShaderProgram::ValidateShaderComposition`
is declared in `ShaderProgram.h`, but its code (`ShaderProgram.cpp`) is not
among the sources. It returns true if the composition of the attachments is
valid, that is, if the composition rules give no error. -/
def ValidateShaderComposition (shaders : List (Option ShaderStage)) : Bool :=
  decide (compositionError shaders = LinkError.NoError)

/-! ## Specification vocabulary -/


/-- The layout entry that the specification assigns to a reflected binding
point: destination equal to source, offsets copied. -/
def identityBinding (p : SpvBindingPoint) : ModuleBinding :=
  { srcDescriptorSet := p.set
    srcBinding := p.binding
    dstDescriptorSet := p.set
    dstBinding := p.binding
    spirvDescriptorSet := p.setWordOffset
    spirvBinding := p.bindingWordOffset }

/-- Ascending order of two entries by the pair `(srcDescriptorSet, srcBinding)`. -/
def srcKeyLe (a b : ModuleBinding) : Prop :=
  a.srcDescriptorSet < b.srcDescriptorSet ∨
    (a.srcDescriptorSet = b.srcDescriptorSet ∧ a.srcBinding ≤ b.srcBinding)

/-- Ascending order of two entries by the pair `(srcDescriptorSet, dstBinding)`. -/
def sortKeyLe (a b : ModuleBinding) : Prop :=
  a.srcDescriptorSet < b.srcDescriptorSet ∨
    (a.srcDescriptorSet = b.srcDescriptorSet ∧ a.dstBinding ≤ b.dstBinding)

/-- A binding list in ascending order of `(srcDescriptorSet, srcBinding)`. -/
def SortedBySrc (bs : List ModuleBinding) : Prop := bs.Pairwise srcKeyLe

/-- The reflected binding points agree with the module: every offset below
`size / 4` addresses a word that holds the reflected number. -/
def Faithful (points : List SpvBindingPoint) (data : List Nat) (size : Nat) : Prop :=
  ∀ p ∈ points,
    (p.setWordOffset < size / 4 → data[p.setWordOffset]? = some p.set) ∧
    (p.bindingWordOffset < size / 4 → data[p.bindingWordOffset]? = some p.binding)

/-- Sample reflector output: three binding points, reported out of order. -/
def samplePoints : List SpvBindingPoint :=
  [⟨0, 1, 7, 8⟩, ⟨0, 0, 3, 4⟩, ⟨1, 0, 10, 11⟩]

/-- Sample reflector that succeeds with `samplePoints` on every module. -/
def sampleReflect : SpirvModuleView → SpirvResult × List SpvBindingPoint :=
  fun _ => (SpirvResult.Success, samplePoints)

/-- Sample reflector that fails on every module. -/
def failingReflect : SpirvModuleView → SpirvResult × List SpvBindingPoint :=
  fun _ => (SpirvResult.InvalidModule, [])

/-- Sample module of twelve words in which the words at the offsets of
`samplePoints` hold the reflected numbers. -/
def sampleData : List Nat := [119734787, 65536, 0, 0, 0, 9, 9, 0, 1, 9, 1, 0]

/-- The layout built from the sample module. -/
def sampleLayout : List ModuleBinding :=
  (BuildFromSpirvModule true sampleReflect [] sampleData 48).2


/-- The pair by which requests identify an entry. -/
def srcKey (b : ModuleBinding) : Nat × Nat := (b.srcDescriptorSet, b.srcBinding)

/-- The pair of destination numbers of an entry. -/
def dstPair (b : ModuleBinding) : Nat × Nat := (b.dstDescriptorSet, b.dstBinding)

/-- A request names an entry: its `(set, index)` is the entry's
`(srcDescriptorSet, srcBinding)`. -/
def Matches (slot : BindingSlot) (b : ModuleBinding) : Prop :=
  slot.set = b.srcDescriptorSet ∧ slot.index = b.srcBinding

instance (slot : BindingSlot) (b : ModuleBinding) : Decidable (Matches slot b) :=
  inferInstanceAs (Decidable (_ ∧ _))

/-- An entry already holds the destination that a call with `dstSet` and the
ascending flag hands out: the descriptor set is `dstSet` and, for an ascending
call, the binding is the value `0` of the counter. -/
def Settled (dstSet : Nat) (ascending : Bool) (b : ModuleBinding) : Prop :=
  b.dstDescriptorSet = dstSet ∧ (ascending = true → b.dstBinding = 0)

/-- Whether processing one request on the binding list `bs` finds an entry and
leaves that entry with a descriptor set or binding different from before. -/
def requestChanges (dstSet : Nat) (ascending : Bool) (bs : List ModuleBinding)
    (slot : BindingSlot) : Bool :=
  match FindInSortedArray bs (compareSlot slot) with
  | none => false
  | some i =>
    decide (((AssignBindingSlots bs [slot] dstSet ascending).2[i]?).map dstPair ≠
      (bs[i]?).map dstPair)

/-- The number of requests of a call that find an entry and change its
destination, each request being processed on the binding list that the
requests before it have left. -/
def changedRequestCount (dstSet : Nat) (ascending : Bool) :
    List ModuleBinding → List BindingSlot → Nat
  | _, [] => 0
  | bs, slot :: rest =>
    (if requestChanges dstSet ascending bs slot then 1 else 0) +
      changedRequestCount dstSet ascending (AssignBindingSlots bs [slot] dstSet ascending).2 rest


/-- No two entries at different positions share their
`(srcDescriptorSet, srcBinding)`. -/
def DistinctSrc (bs : List ModuleBinding) : Prop :=
  bs.Pairwise (fun a b => ¬ (a.srcDescriptorSet = b.srcDescriptorSet ∧ a.srcBinding = b.srcBinding))

/-- Sample binding list as reflected from a module with the two bindings
`(0, 0)` and `(0, 1)`. -/
def twoBindings : List ModuleBinding :=
  (BuildFromSpirvModule true
    (fun _ => (SpirvResult.Success, [⟨0, 0, 3, 4⟩, ⟨0, 1, 7, 8⟩])) [] [] 0).2


/-- The little-endian reading of four bytes as one word, used for sample
inputs. -/
def packLE (b0 b1 b2 b3 : Nat) : Nat := b0 + 256 * b1 + 65536 * b2 + 16777216 * b3

/-- The word offsets recorded in a binding list, entry by entry: the
`spirvDescriptorSet` and the `spirvBinding` of each. -/
def wordOffsets : List ModuleBinding → List Nat
  | [] => []
  | b :: rest => b.spirvDescriptorSet :: b.spirvBinding :: wordOffsets rest

/-- The value that one loop iteration of `UpdateSpirvModule` stores at the word
index `j`, if it stores there: the `dstBinding` store is the later of the two. -/
def storeOf (numWords : Nat) (b : ModuleBinding) (j : Nat) : Option Nat :=
  if b.spirvBinding < numWords ∧ b.spirvBinding = j then some b.dstBinding
  else if b.spirvDescriptorSet < numWords ∧ b.spirvDescriptorSet = j then
    some b.dstDescriptorSet
  else none

/-- The value of the last store of the whole loop at the word index `j`, if
there is one. -/
def lastStore (numWords : Nat) : List ModuleBinding → Nat → Option Nat
  | [], _ => none
  | b :: rest, j =>
    match lastStore numWords rest j with
    | some v => some v
    | none => storeOf numWords b j

/-- Sample binding list in which the two entries share both word offsets. -/
def sharedOffsets : List ModuleBinding :=
  [⟨0, 0, 5, 6, 3, 4⟩, ⟨0, 1, 7, 8, 4, 3⟩]

/-- The fields of an entry that identify it and locate it in the module. -/
def fixedFields (b : ModuleBinding) : Nat × Nat × Nat × Nat :=
  (b.srcDescriptorSet, b.srcBinding, b.spirvDescriptorSet, b.spirvBinding)

instance (dstSet : Nat) (ascending : Bool) (b : ModuleBinding) :
    Decidable (Settled dstSet ascending b) :=
  inferInstanceAs (Decidable (_ ∧ _))

/-- The number of entries that do not yet hold the destination of a call. -/
def unsettledCount (dstSet : Nat) (ascending : Bool) (bs : List ModuleBinding) : Nat :=
  bs.countP (fun b => !decide (Settled dstSet ascending b))

/-- A finite sequence of `AssignBindingSlots` calls, each with its requests,
its `dstSet` and its ascending flag, applied one after the other. -/
def assignCalls (bs : List ModuleBinding) (calls : List (List BindingSlot × Nat × Bool)) :
    List ModuleBinding :=
  calls.foldl (fun l call => (AssignBindingSlots l call.1 call.2.1 call.2.2).2) bs

/-- Sample order of the resource types in which the constant buffer ranks
above the texture, as in the ordering example of the specification. -/
def sampleRank : ResourceType → Nat
  | ResourceType.ConstantBuffer => 3
  | ResourceType.StorageBuffer => 2
  | ResourceType.Texture => 1
  | ResourceType.Sampler => 0

/-! ## The header check -/

theorem readSpirvHeader_cases (MagicNumber : Nat) (words : List Nat) (outHeader : SpirvHeader) :
    ((ReadSpirvHeader MagicNumber words words.length outHeader).1 = SpirvResult.Success ↔
        5 ≤ words.length ∧ words[0]? = some MagicNumber) ∧
    ((ReadSpirvHeader MagicNumber words words.length outHeader).1 = SpirvResult.InvalidModule ↔
        words.length < 5) ∧
    ((ReadSpirvHeader MagicNumber words words.length outHeader).1 = SpirvResult.InvalidHeader ↔
        5 ≤ words.length ∧ words[0]? ≠ some MagicNumber) := by
  unfold ReadSpirvHeader SpirvHeaderWords headerOfWords
  cases words with
  | nil => simp
  | cons w ws =>
    simp only [List.length_cons, List.getD_cons_zero, List.getElem?_cons_zero, Option.some.injEq]
    by_cases h5 : ws.length + 1 < 5
    · simp only [h5, if_true]
      simp
      omega
    · by_cases hm : w = MagicNumber
      · simp only [h5, if_false]
        simp [hm]
        omega
      · simp only [h5, if_false]
        simp [hm]
        omega

/-- C1: `ReadHeader` of `SpirvModule` and of `SpirvModuleView` returns `Success`
exactly when the module has at least five words and its first word is the magic
number, `InvalidModule` exactly when it has fewer than five words, and
`InvalidHeader` exactly when it has at least five words and the first word is
not the magic number. -/
theorem ReadHeader_result (MagicNumber : Nat) (words : List Nat) (outHeader : SpirvHeader) :
    (((SpirvModule.mk words).ReadHeader MagicNumber outHeader).1 = SpirvResult.Success ↔
        5 ≤ words.length ∧ words[0]? = some MagicNumber) ∧
    (((SpirvModule.mk words).ReadHeader MagicNumber outHeader).1 = SpirvResult.InvalidModule ↔
        words.length < 5) ∧
    (((SpirvModule.mk words).ReadHeader MagicNumber outHeader).1 = SpirvResult.InvalidHeader ↔
        5 ≤ words.length ∧ words[0]? ≠ some MagicNumber) ∧
    (((SpirvModuleView.mk words).ReadHeader MagicNumber outHeader).1 = SpirvResult.Success ↔
        5 ≤ words.length ∧ words[0]? = some MagicNumber) ∧
    (((SpirvModuleView.mk words).ReadHeader MagicNumber outHeader).1 = SpirvResult.InvalidModule ↔
        words.length < 5) ∧
    (((SpirvModuleView.mk words).ReadHeader MagicNumber outHeader).1 = SpirvResult.InvalidHeader ↔
        5 ≤ words.length ∧ words[0]? ≠ some MagicNumber) := by
  have h := readSpirvHeader_cases MagicNumber words outHeader
  exact ⟨h.1, h.2.1, h.2.2, h.1, h.2.1, h.2.2⟩

/-! ## Patching the module -/

theorem updateStep_length (numWords : Nat) (words : List Nat) (b : ModuleBinding) :
    (updateStep numWords words b).length = words.length := by
  unfold updateStep
  split_ifs <;> simp

theorem updateStep_getElem?_of_ge (numWords : Nat) (words : List Nat) (b : ModuleBinding)
    (i : Nat) (hi : numWords ≤ i) : (updateStep numWords words b)[i]? = words[i]? := by
  unfold updateStep
  split_ifs with h1 h2 h2
  · rw [List.getElem?_set_ne (by omega), List.getElem?_set_ne (by omega)]
  · rw [List.getElem?_set_ne (by omega)]
  · rw [List.getElem?_set_ne (by omega)]
  · rfl

theorem updateStep_getElem?_of_ne (numWords : Nat) (words : List Nat) (b : ModuleBinding)
    (i : Nat) (h : b.spirvDescriptorSet ≠ i ∧ b.spirvBinding ≠ i) :
    (updateStep numWords words b)[i]? = words[i]? := by
  unfold updateStep
  split_ifs with h1 h2 h2
  · rw [List.getElem?_set_ne h.2, List.getElem?_set_ne h.1]
  · rw [List.getElem?_set_ne h.1]
  · rw [List.getElem?_set_ne h.2]
  · rfl

theorem foldl_updateStep_length (numWords : Nat) (bs : List ModuleBinding) (words : List Nat) :
    (bs.foldl (updateStep numWords) words).length = words.length := by
  induction bs generalizing words with
  | nil => rfl
  | cons b bs ih => rw [List.foldl_cons, ih, updateStep_length]

theorem foldl_updateStep_getElem?_of_ge (numWords : Nat) (bs : List ModuleBinding)
    (words : List Nat) (i : Nat) (hi : numWords ≤ i) :
    (bs.foldl (updateStep numWords) words)[i]? = words[i]? := by
  induction bs generalizing words with
  | nil => rfl
  | cons b bs ih => rw [List.foldl_cons, ih, updateStep_getElem?_of_ge _ _ _ _ hi]

theorem foldl_updateStep_getElem?_of_ne (numWords : Nat) (bs : List ModuleBinding)
    (words : List Nat) (i : Nat)
    (h : ∀ b ∈ bs, b.spirvDescriptorSet ≠ i ∧ b.spirvBinding ≠ i) :
    (bs.foldl (updateStep numWords) words)[i]? = words[i]? := by
  induction bs generalizing words with
  | nil => rfl
  | cons b bs ih =>
    rw [List.foldl_cons, ih _ (fun c hc => h c (List.mem_cons_of_mem _ hc)),
      updateStep_getElem?_of_ne _ _ _ _ (h b (List.mem_cons_self _ _))]

/-- C2: `UpdateSpirvModule` keeps the number of words, leaves every word at an
index of at least `size / 4` as it was, and leaves every word as it was whose
index is neither the `spirvDescriptorSet` nor the `spirvBinding` offset of a
binding of the layout. -/
theorem UpdateSpirvModule_frame (bindings_ : List ModuleBinding) (data : List Nat)
    (size : Nat) :
    (UpdateSpirvModule bindings_ data size).length = data.length ∧
    (∀ i, size / 4 ≤ i → (UpdateSpirvModule bindings_ data size)[i]? = data[i]?) ∧
    (∀ i, (∀ b ∈ bindings_, b.spirvDescriptorSet ≠ i ∧ b.spirvBinding ≠ i) →
      (UpdateSpirvModule bindings_ data size)[i]? = data[i]?) :=
  ⟨foldl_updateStep_length _ _ _,
   fun i hi => foldl_updateStep_getElem?_of_ge _ _ _ i hi,
   fun i h => foldl_updateStep_getElem?_of_ne _ _ _ i h⟩


/-! ## Building the layout -/

theorem sortLe_iff (a b : ModuleBinding) : sortLe a b ↔ sortKeyLe a b := by
  unfold sortLe sortLess sortKeyLe
  split_ifs with h1 h2
  · simp; omega
  · simp; omega
  · simp; omega

instance : IsTotal ModuleBinding sortLe :=
  ⟨fun a b => by rw [sortLe_iff, sortLe_iff]; unfold sortKeyLe; omega⟩

instance : IsTrans ModuleBinding sortLe :=
  ⟨fun a b c => by rw [sortLe_iff, sortLe_iff, sortLe_iff]; unfold sortKeyLe; omega⟩

theorem stdSort_perm (v : List ModuleBinding) : (stdSort v).Perm v :=
  List.perm_insertionSort sortLe v

theorem stdSort_sorted (v : List ModuleBinding) : (stdSort v).Pairwise sortKeyLe := by
  have h : (stdSort v).Pairwise sortLe := List.sorted_insertionSort sortLe v
  exact h.imp (fun {a b} hab => (sortLe_iff a b).1 hab)

theorem vectorResize_length (v : List ModuleBinding) (n : Nat) :
    (vectorResize v n).length = n := by
  unfold vectorResize
  simp
  omega

theorem zipWith_ConvertBindingPoint (l : List ModuleBinding) (points : List SpvBindingPoint)
    (h : points.length ≤ l.length) :
    List.zipWith ConvertBindingPoint l points = points.map identityBinding := by
  induction points generalizing l with
  | nil => simp
  | cons p ps ih =>
    cases l with
    | nil => simp at h
    | cons d ds =>
      simp only [List.zipWith_cons_cons, List.map_cons]
      rw [ih ds (by simpa using h)]
      rfl

theorem BuildFromSpirvModule_of_success
    (reflect : SpirvModuleView → SpirvResult × List SpvBindingPoint)
    (bindings_ : List ModuleBinding) (data : List Nat) (size : Nat)
    (hok : (reflect (SpirvModuleView.ofData data size)).1 = SpirvResult.Success) :
    BuildFromSpirvModule true reflect bindings_ data size =
      (true, stdSort ((reflect (SpirvModuleView.ofData data size)).2.map identityBinding)) := by
  unfold BuildFromSpirvModule
  simp only [if_true, hok, ne_eq, not_true_eq_false, if_false]
  rw [zipWith_ConvertBindingPoint _ _ (by rw [vectorResize_length])]

theorem BuildFromSpirvModule_of_failure (enabled : Bool)
    (reflect : SpirvModuleView → SpirvResult × List SpvBindingPoint)
    (bindings_ : List ModuleBinding) (data : List Nat) (size : Nat)
    (h : enabled = false ∨ (reflect (SpirvModuleView.ofData data size)).1 ≠ SpirvResult.Success) :
    BuildFromSpirvModule enabled reflect bindings_ data size = (false, bindings_) := by
  unfold BuildFromSpirvModule
  rcases h with h | h
  · simp [h]
  · cases enabled <;> simp [h]

theorem pairwise_srcKeyLe_of_identity (bs : List ModuleBinding)
    (hid : ∀ b ∈ bs, b.dstBinding = b.srcBinding) (h : bs.Pairwise sortKeyLe) :
    SortedBySrc bs := by
  unfold SortedBySrc
  induction bs with
  | nil => exact List.Pairwise.nil
  | cons a l ih =>
    rw [List.pairwise_cons] at h ⊢
    refine ⟨?_, ih (fun b hb => hid b (List.mem_cons_of_mem _ hb)) h.2⟩
    intro b hb
    have h1 := h.1 b hb
    have h2 := hid a (List.mem_cons_self _ _)
    have h3 := hid b (List.mem_cons_of_mem _ hb)
    unfold sortKeyLe at h1
    unfold srcKeyLe
    omega

/-- C9: when reflection succeeds, `BuildFromSpirvModule` returns true; the
binding list is a rearrangement of the reflected binding points converted one
to one (source and destination numbers both equal to the reflected set and
binding, offsets copied); and it is in ascending order of
`(srcDescriptorSet, dstBinding)`, which here is also the ascending order of
`(srcDescriptorSet, srcBinding)`. -/
theorem BuildFromSpirvModule_success
    (reflect : SpirvModuleView → SpirvResult × List SpvBindingPoint)
    (bindings_ : List ModuleBinding) (data : List Nat) (size : Nat)
    (hok : (reflect (SpirvModuleView.ofData data size)).1 = SpirvResult.Success) :
    (BuildFromSpirvModule true reflect bindings_ data size).1 = true ∧
    (BuildFromSpirvModule true reflect bindings_ data size).2.Perm
      ((reflect (SpirvModuleView.ofData data size)).2.map
        (fun p => ModuleBinding.mk p.set p.binding p.set p.binding
          p.setWordOffset p.bindingWordOffset)) ∧
    (∀ b ∈ (BuildFromSpirvModule true reflect bindings_ data size).2,
      b.dstDescriptorSet = b.srcDescriptorSet ∧ b.dstBinding = b.srcBinding) ∧
    (BuildFromSpirvModule true reflect bindings_ data size).2.Pairwise
      (fun a b => a.srcDescriptorSet < b.srcDescriptorSet ∨
        (a.srcDescriptorSet = b.srcDescriptorSet ∧ a.dstBinding ≤ b.dstBinding)) ∧
    (BuildFromSpirvModule true reflect bindings_ data size).2.Pairwise
      (fun a b => a.srcDescriptorSet < b.srcDescriptorSet ∨
        (a.srcDescriptorSet = b.srcDescriptorSet ∧ a.srcBinding ≤ b.srcBinding)) := by
  rw [BuildFromSpirvModule_of_success reflect bindings_ data size hok]
  have hperm := stdSort_perm ((reflect (SpirvModuleView.ofData data size)).2.map identityBinding)
  have hid : ∀ b ∈ stdSort ((reflect (SpirvModuleView.ofData data size)).2.map identityBinding),
      b.dstDescriptorSet = b.srcDescriptorSet ∧ b.dstBinding = b.srcBinding := by
    intro b hb
    obtain ⟨p, _, rfl⟩ := List.mem_map.1 (hperm.mem_iff.1 hb)
    exact ⟨rfl, rfl⟩
  have hsorted := stdSort_sorted ((reflect (SpirvModuleView.ofData data size)).2.map identityBinding)
  exact ⟨rfl, hperm, hid, hsorted,
    pairwise_srcKeyLe_of_identity _ (fun b hb => (hid b hb).2) hsorted⟩

/-- Witness for C9: the sample reflector reports three binding points out of
order. -/
theorem BuildFromSpirvModule_success_witness :
    (sampleReflect (SpirvModuleView.ofData sampleData 48)).1 = SpirvResult.Success ∧
    (BuildFromSpirvModule true sampleReflect [] sampleData 48).1 = true ∧
    (BuildFromSpirvModule true sampleReflect [] sampleData 48).2 =
      [⟨0, 0, 0, 0, 3, 4⟩, ⟨0, 1, 0, 1, 7, 8⟩, ⟨1, 0, 1, 0, 10, 11⟩] :=
  ⟨rfl, (BuildFromSpirvModule_success sampleReflect [] sampleData 48 rfl).1, by decide⟩

theorem updateStep_eq_self (numWords : Nat) (words : List Nat) (b : ModuleBinding)
    (h1 : b.spirvDescriptorSet < numWords → words[b.spirvDescriptorSet]? = some b.dstDescriptorSet)
    (h2 : b.spirvBinding < numWords → words[b.spirvBinding]? = some b.dstBinding) :
    updateStep numWords words b = words := by
  have hset : ∀ (l : List Nat) (i v : Nat), l[i]? = some v → l.set i v = l := by
    intro l i v h
    apply List.ext_getElem? 
    intro j
    by_cases hij : i = j
    · subst hij
      rw [List.getElem?_set_self', h]
      simp
    · rw [List.getElem?_set_ne hij]
  unfold updateStep
  split_ifs with c1 c2 c2
  · rw [hset _ _ _ (h1 c1), hset _ _ _ (h2 c2)]
  · rw [hset _ _ _ (h1 c1)]
  · rw [hset _ _ _ (h2 c2)]
  · rfl

theorem foldl_updateStep_eq_self (numWords : Nat) (bs : List ModuleBinding) (words : List Nat)
    (h : ∀ b ∈ bs,
      (b.spirvDescriptorSet < numWords → words[b.spirvDescriptorSet]? = some b.dstDescriptorSet) ∧
      (b.spirvBinding < numWords → words[b.spirvBinding]? = some b.dstBinding)) :
    bs.foldl (updateStep numWords) words = words := by
  induction bs with
  | nil => rfl
  | cons b bs ih =>
    rw [List.foldl_cons,
      updateStep_eq_self _ _ _ (h b (List.mem_cons_self _ _)).1 (h b (List.mem_cons_self _ _)).2]
    exact ih (fun c hc => h c (List.mem_cons_of_mem _ hc))

/-- C3: when reflection succeeds with binding points that agree with the
module, building the layout and patching the same buffer, with no assignment
in between, gives back the buffer word for word; the same holds for every
rearrangement of the built binding list, so it does not depend on how the sort
orders equivalent entries. -/
theorem BuildFromSpirvModule_UpdateSpirvModule_roundTrip
    (reflect : SpirvModuleView → SpirvResult × List SpvBindingPoint)
    (bindings_ : List ModuleBinding) (data : List Nat) (size : Nat)
    (hok : (reflect (SpirvModuleView.ofData data size)).1 = SpirvResult.Success)
    (hfaithful : Faithful (reflect (SpirvModuleView.ofData data size)).2 data size) :
    UpdateSpirvModule (BuildFromSpirvModule true reflect bindings_ data size).2 data size = data ∧
    ∀ bs : List ModuleBinding,
      bs.Perm (BuildFromSpirvModule true reflect bindings_ data size).2 →
      UpdateSpirvModule bs data size = data := by
  rw [BuildFromSpirvModule_of_success reflect bindings_ data size hok]
  have key : ∀ bs : List ModuleBinding,
      bs.Perm (stdSort ((reflect (SpirvModuleView.ofData data size)).2.map identityBinding)) →
      UpdateSpirvModule bs data size = data := by
    intro bs hperm
    apply foldl_updateStep_eq_self
    intro b hb
    obtain ⟨p, hp, rfl⟩ := List.mem_map.1 ((stdSort_perm _).mem_iff.1 (hperm.mem_iff.1 hb))
    exact hfaithful p hp
  exact ⟨key _ (List.Perm.refl _), key⟩

/-- Witness for C3: the sample module and its reflected binding points. -/
theorem BuildFromSpirvModule_UpdateSpirvModule_roundTrip_witness :
    (sampleReflect (SpirvModuleView.ofData sampleData 48)).1 = SpirvResult.Success ∧
    Faithful (sampleReflect (SpirvModuleView.ofData sampleData 48)).2 sampleData 48 ∧
    UpdateSpirvModule (BuildFromSpirvModule true sampleReflect [] sampleData 48).2
      sampleData 48 = sampleData :=
  have hf : Faithful (sampleReflect (SpirvModuleView.ofData sampleData 48)).2 sampleData 48 := by
    unfold Faithful
    decide
  ⟨rfl, hf,
    (BuildFromSpirvModule_UpdateSpirvModule_roundTrip sampleReflect [] sampleData 48 rfl hf).1⟩


/-! ## The search -/

theorem set_eq_self_of_getElem? {α : Type} (l : List α) (i : Nat) (v : α)
    (h : l[i]? = some v) : l.set i v = l := by
  apply List.ext_getElem?
  intro j
  by_cases hij : i = j
  · subst hij
    rw [List.getElem?_set_self', h]
    simp
  · rw [List.getElem?_set_ne hij]

theorem compareSlot_eq_zero_iff (slot : BindingSlot) (b : ModuleBinding) :
    compareSlot slot b = 0 ↔ Matches slot b := by
  unfold compareSlot Matches
  split_ifs <;> simp <;> omega

theorem compareSlot_pos_iff (slot : BindingSlot) (b : ModuleBinding) :
    compareSlot slot b > 0 ↔
      (b.srcDescriptorSet < slot.set ∨
        (b.srcDescriptorSet = slot.set ∧ b.srcBinding < slot.index)) := by
  unfold compareSlot
  split_ifs <;> simp <;> omega

theorem compareSlot_neg_iff (slot : BindingSlot) (b : ModuleBinding) :
    compareSlot slot b < 0 ↔
      (slot.set < b.srcDescriptorSet ∨
        (b.srcDescriptorSet = slot.set ∧ slot.index < b.srcBinding)) := by
  unfold compareSlot
  split_ifs <;> simp <;> omega

theorem compareSlot_congr (slot : BindingSlot) (a b : ModuleBinding)
    (h : srcKey a = srcKey b) : compareSlot slot a = compareSlot slot b := by
  unfold srcKey at h
  simp only [Prod.mk.injEq] at h
  unfold compareSlot
  rw [h.1, h.2]

theorem findLoop_sound (data : List ModuleBinding) (compare : ModuleBinding → Int)
    (fuel first last i : Nat) (h : findLoop data compare fuel first last = some i) :
    ∃ e, data[i]? = some e ∧ compare e = 0 := by
  induction fuel generalizing first last with
  | zero => simp [findLoop] at h
  | succ fuel ih =>
    unfold findLoop at h
    split_ifs at h with hlt
    simp only at h
    split at h
    · simp at h
    · rename_i entry hentry
      split_ifs at h with hpos hneg
      · exact ih _ _ h
      · exact ih _ _ h
      · simp only [Option.some.injEq] at h
        subst h
        exact ⟨entry, hentry, by omega⟩

theorem FindInSortedArray_sound (data : List ModuleBinding) (compare : ModuleBinding → Int)
    (i : Nat) (h : FindInSortedArray data compare = some i) :
    ∃ e, data[i]? = some e ∧ compare e = 0 :=
  findLoop_sound data compare _ _ _ i h

theorem findLoop_congr (data data2 : List ModuleBinding) (slot : BindingSlot)
    (hkeys : data2.map srcKey = data.map srcKey) (fuel first last : Nat) :
    findLoop data2 (compareSlot slot) fuel first last =
      findLoop data (compareSlot slot) fuel first last := by
  have hget : ∀ i : Nat, (data2[i]?).map srcKey = (data[i]?).map srcKey := by
    intro i
    have h := congrArg (fun l : List (Nat × Nat) => l[i]?) hkeys
    simpa using h
  induction fuel generalizing first last with
  | zero => rfl
  | succ fuel ih =>
    unfold findLoop
    split_ifs with hlt
    · simp only
      have hg := hget ((first + last) / 2)
      cases h2 : data2[(first + last) / 2]? with
      | none =>
        rw [h2] at hg
        cases h1 : data[(first + last) / 2]? with
        | none => rfl
        | some e => rw [h1] at hg; simp at hg
      | some e2 =>
        rw [h2] at hg
        cases h1 : data[(first + last) / 2]? with
        | none => rw [h1] at hg; simp at hg
        | some e =>
          rw [h1] at hg
          simp only [Option.map_some', Option.some.injEq] at hg
          simp only
          rw [compareSlot_congr slot e2 e hg, ih, ih]
    · rfl

theorem FindInSortedArray_congr (data data2 : List ModuleBinding) (slot : BindingSlot)
    (hkeys : data2.map srcKey = data.map srcKey) :
    FindInSortedArray data2 (compareSlot slot) = FindInSortedArray data (compareSlot slot) := by
  unfold FindInSortedArray
  have hlen : data2.length = data.length := by
    have := congrArg List.length hkeys
    simpa using this
  rw [hlen]
  exact findLoop_congr data data2 slot hkeys _ _ _


/-! ## Assigning binding slots -/

theorem AssignBindingSlot_srcKey (b : ModuleBinding) (slot : BindingSlot) (dstSet : Nat)
    (p : Option Nat) : srcKey (AssignBindingSlot b slot dstSet p).1 = srcKey b := by
  unfold AssignBindingSlot srcKey
  cases p <;> simp only <;> split_ifs <;> rfl

theorem AssignBindingSlot_dst (b : ModuleBinding) (slot : BindingSlot) (dstSet : Nat)
    (p : Option Nat) :
    (AssignBindingSlot b slot dstSet p).1.dstDescriptorSet = dstSet ∧
    (∀ v, p = some v → (AssignBindingSlot b slot dstSet p).1.dstBinding = v) ∧
    (p = none → (AssignBindingSlot b slot dstSet p).1.dstBinding = b.dstBinding) := by
  unfold AssignBindingSlot
  cases p with
  | none =>
    simp only
    split_ifs with h
    · simp
    · simp only [ne_eq, not_not] at h
      simp [h]
  | some v =>
    simp only
    split_ifs with h1 h2 h2
    · simp
    · simp only [ne_eq, not_not] at h2
      simpa using h2
    · simp only [ne_eq, not_not] at h1
      simp [h1]
    · simp only [ne_eq, not_not] at h1 h2
      simp [h1, h2]

theorem AssignBindingSlot_of_held (b : ModuleBinding) (slot : BindingSlot) (dstSet : Nat)
    (p : Option Nat) (h1 : b.dstDescriptorSet = dstSet) (h2 : ∀ v, p = some v → b.dstBinding = v) :
    AssignBindingSlot b slot dstSet p = (b, false) := by
  unfold AssignBindingSlot
  cases p with
  | none => simp [h1]
  | some v => simp [h1, h2 v rfl]

theorem AssignBindingSlot_modified_iff (b : ModuleBinding) (slot : BindingSlot) (dstSet : Nat)
    (p : Option Nat) :
    (AssignBindingSlot b slot dstSet p).2 = true ↔
      dstPair (AssignBindingSlot b slot dstSet p).1 ≠ dstPair b := by
  unfold AssignBindingSlot dstPair
  cases p with
  | none =>
    simp only
    split_ifs with h
    · simp only [ne_eq, Prod.mk.injEq, not_and, true_iff]
      intro h3
      exact absurd h3.symm h
    · simp
  | some v =>
    simp only
    split_ifs with h1 h2 h2
    · simp only [ne_eq, Prod.mk.injEq, not_and, true_iff]
      intro h3
      exact absurd h3.symm h1
    · simp only [ne_eq, Prod.mk.injEq, not_and, true_iff]
      intro h3
      exact absurd h3.symm h1
    · simp only [ne_eq, Prod.mk.injEq, not_and, true_iff]
      intro _ h3
      exact h2 h3.symm
    · simp

theorem assignStep_of_none (dstSet : Nat) (asc : Bool) (c : Nat)
    (state : List ModuleBinding × Nat) (slot : BindingSlot)
    (h : FindInSortedArray state.1 (compareSlot slot) = none) :
    assignStep dstSet asc c state slot = state := by
  unfold assignStep
  rw [h]

theorem assignStep_of_some (dstSet : Nat) (asc : Bool) (c : Nat)
    (state : List ModuleBinding × Nat) (slot : BindingSlot) (i : Nat)
    (h : FindInSortedArray state.1 (compareSlot slot) = some i) :
    ∃ b, state.1[i]? = some b ∧ Matches slot b ∧
      assignStep dstSet asc c state slot =
        (state.1.set i (AssignBindingSlot b slot dstSet (if asc then some c else none)).1,
         if (AssignBindingSlot b slot dstSet (if asc then some c else none)).2
           then (state.2 + 1) % 4294967296 else state.2) := by
  obtain ⟨b, hb, hz⟩ := FindInSortedArray_sound _ _ _ h
  refine ⟨b, hb, (compareSlot_eq_zero_iff slot b).1 hz, ?_⟩
  unfold assignStep
  rw [h]
  simp only [hb]

theorem assignStep_srcKey (dstSet : Nat) (asc : Bool) (c : Nat)
    (state : List ModuleBinding × Nat) (slot : BindingSlot) :
    (assignStep dstSet asc c state slot).1.map srcKey = state.1.map srcKey := by
  cases h : FindInSortedArray state.1 (compareSlot slot) with
  | none => rw [assignStep_of_none _ _ _ _ _ h]
  | some i =>
    obtain ⟨b, hb, _, heq⟩ := assignStep_of_some dstSet asc c state slot i h
    rw [heq]
    simp only [List.map_set, AssignBindingSlot_srcKey]
    apply set_eq_self_of_getElem?
    rw [List.getElem?_map, hb]
    rfl

theorem foldl_assignStep_srcKey (dstSet : Nat) (asc : Bool) (c : Nat)
    (iter : List BindingSlot) (state : List ModuleBinding × Nat) :
    (iter.foldl (assignStep dstSet asc c) state).1.map srcKey = state.1.map srcKey := by
  induction iter generalizing state with
  | nil => rfl
  | cons s rest ih => rw [List.foldl_cons, ih, assignStep_srcKey]

theorem assignStep_find (dstSet : Nat) (asc : Bool) (c : Nat)
    (state : List ModuleBinding × Nat) (slot s : BindingSlot) :
    FindInSortedArray (assignStep dstSet asc c state slot).1 (compareSlot s) =
      FindInSortedArray state.1 (compareSlot s) :=
  FindInSortedArray_congr _ _ s (assignStep_srcKey dstSet asc c state slot)


theorem AssignBindingSlot_settled (b : ModuleBinding) (slot : BindingSlot) (dstSet : Nat)
    (asc : Bool) :
    Settled dstSet asc (AssignBindingSlot b slot dstSet (if asc then some 0 else none)).1 := by
  have h := AssignBindingSlot_dst b slot dstSet (if asc then some 0 else none)
  refine ⟨h.1, fun hasc => h.2.1 0 ?_⟩
  simp [hasc]

theorem AssignBindingSlot_of_settled (b : ModuleBinding) (slot : BindingSlot) (dstSet : Nat)
    (asc : Bool) (h : Settled dstSet asc b) :
    AssignBindingSlot b slot dstSet (if asc then some 0 else none) = (b, false) := by
  apply AssignBindingSlot_of_held _ _ _ _ h.1
  intro v hv
  cases asc with
  | false => simp at hv
  | true =>
    simp only [if_true, Option.some.injEq] at hv
    rw [← hv]
    exact h.2 rfl

/-- A settled entry stays settled through one loop iteration. -/
theorem assignStep_settled_mono (dstSet : Nat) (asc : Bool)
    (state : List ModuleBinding × Nat) (slot : BindingSlot) (j : Nat)
    (h : ∃ b, state.1[j]? = some b ∧ Settled dstSet asc b) :
    ∃ b, (assignStep dstSet asc 0 state slot).1[j]? = some b ∧ Settled dstSet asc b := by
  cases hf : FindInSortedArray state.1 (compareSlot slot) with
  | none => rw [assignStep_of_none _ _ _ _ _ hf]; exact h
  | some i =>
    obtain ⟨b, hb, _, heq⟩ := assignStep_of_some dstSet asc 0 state slot i hf
    rw [heq]
    by_cases hij : i = j
    · subst hij
      have hlt : i < state.1.length := by
        rcases List.getElem?_eq_some.1 hb with ⟨hlt, _⟩
        exact hlt
      exact ⟨_, by simp [List.getElem?_set_self hlt], AssignBindingSlot_settled b slot dstSet asc⟩
    · simpa [List.getElem?_set_ne hij] using h

theorem foldl_assignStep_settled_mono (dstSet : Nat) (asc : Bool) (iter : List BindingSlot)
    (state : List ModuleBinding × Nat) (j : Nat)
    (h : ∃ b, state.1[j]? = some b ∧ Settled dstSet asc b) :
    ∃ b, (iter.foldl (assignStep dstSet asc 0) state).1[j]? = some b ∧ Settled dstSet asc b := by
  induction iter generalizing state with
  | nil => exact h
  | cons s rest ih =>
    rw [List.foldl_cons]
    exact ih _ (assignStep_settled_mono dstSet asc state s j h)

/-- The entry that a request finds is settled after the loop iteration for
that request. -/
theorem assignStep_settled_found (dstSet : Nat) (asc : Bool)
    (state : List ModuleBinding × Nat) (slot : BindingSlot) (i : Nat)
    (hf : FindInSortedArray state.1 (compareSlot slot) = some i) :
    ∃ b, (assignStep dstSet asc 0 state slot).1[i]? = some b ∧ Settled dstSet asc b := by
  obtain ⟨b, hb, _, heq⟩ := assignStep_of_some dstSet asc 0 state slot i hf
  rw [heq]
  have hlt : i < state.1.length := by
    rcases List.getElem?_eq_some.1 hb with ⟨hlt, _⟩
    exact hlt
  exact ⟨_, by simp [List.getElem?_set_self hlt], AssignBindingSlot_settled b slot dstSet asc⟩

/-- After the loop every entry that one of the requests finds is settled. -/
theorem foldl_assignStep_settled (dstSet : Nat) (asc : Bool) (iter : List BindingSlot)
    (state : List ModuleBinding × Nat) (s : BindingSlot) (hs : s ∈ iter) (i : Nat)
    (hf : FindInSortedArray state.1 (compareSlot s) = some i) :
    ∃ b, (iter.foldl (assignStep dstSet asc 0) state).1[i]? = some b ∧ Settled dstSet asc b := by
  induction iter generalizing state with
  | nil => simp at hs
  | cons r rest ih =>
    rw [List.foldl_cons]
    by_cases hmem : s ∈ rest
    · exact ih _ hmem (by rw [assignStep_find]; exact hf)
    · have hsr : s = r := by
        rcases List.mem_cons.1 hs with h | h
        · exact h
        · exact absurd h hmem
      subst hsr
      exact foldl_assignStep_settled_mono dstSet asc rest _ i
        (assignStep_settled_found dstSet asc state s i hf)

/-- A loop iteration whose request finds nothing or a settled entry changes
neither the binding list nor the count. -/
theorem assignStep_eq_self (dstSet : Nat) (asc : Bool) (state : List ModuleBinding × Nat)
    (slot : BindingSlot)
    (h : ∀ i, FindInSortedArray state.1 (compareSlot slot) = some i →
      ∃ b, state.1[i]? = some b ∧ Settled dstSet asc b) :
    assignStep dstSet asc 0 state slot = state := by
  cases hf : FindInSortedArray state.1 (compareSlot slot) with
  | none => exact assignStep_of_none _ _ _ _ _ hf
  | some i =>
    obtain ⟨b, hb, hsettled⟩ := h i hf
    obtain ⟨b2, hb2, _, heq⟩ := assignStep_of_some dstSet asc 0 state slot i hf
    rw [hb] at hb2
    simp only [Option.some.injEq] at hb2
    subst hb2
    rw [heq, AssignBindingSlot_of_settled b slot dstSet asc hsettled]
    simp only [Bool.false_eq_true, if_false]
    rw [set_eq_self_of_getElem? _ _ _ hb]

theorem foldl_assignStep_eq_self (dstSet : Nat) (asc : Bool) (iter : List BindingSlot)
    (state : List ModuleBinding × Nat)
    (h : ∀ s ∈ iter, ∀ i, FindInSortedArray state.1 (compareSlot s) = some i →
      ∃ b, state.1[i]? = some b ∧ Settled dstSet asc b) :
    iter.foldl (assignStep dstSet asc 0) state = state := by
  induction iter with
  | nil => rfl
  | cons r rest ih =>
    rw [List.foldl_cons, assignStep_eq_self dstSet asc state r (h r (List.mem_cons_self _ _))]
    exact ih (fun s hs => h s (List.mem_cons_of_mem _ hs))

/-- C6: a second call of `AssignBindingSlots` with the same requests, the same
`dstSet` and the same flag returns 0 and leaves the binding list, and so every
entry's `dstDescriptorSet` and `dstBinding`, as the first call left it. -/
theorem AssignBindingSlots_idempotent (bindings_ : List ModuleBinding)
    (iter : List BindingSlot) (dstSet : Nat) (ascending : Bool) :
    AssignBindingSlots (AssignBindingSlots bindings_ iter dstSet ascending).2 iter dstSet
        ascending =
      (0, (AssignBindingSlots bindings_ iter dstSet ascending).2) := by
  unfold AssignBindingSlots
  simp only
  rw [foldl_assignStep_eq_self]
  intro s hs i hf
  simp only at hf ⊢
  rw [FindInSortedArray_congr _ _ s (foldl_assignStep_srcKey dstSet ascending 0 iter
    (bindings_, 0))] at hf
  exact foldl_assignStep_settled dstSet ascending iter (bindings_, 0) s hs i hf

/-- A call none of whose requests names an entry returns 0 and changes
nothing. -/
theorem AssignBindingSlots_of_no_match (bs : List ModuleBinding) (iter : List BindingSlot)
    (dstSet : Nat) (asc : Bool) (hno : ∀ s ∈ iter, ∀ b ∈ bs, ¬ Matches s b) :
    AssignBindingSlots bs iter dstSet asc = (0, bs) := by
  unfold AssignBindingSlots
  simp only
  rw [foldl_assignStep_eq_self]
  intro s hs i hf
  obtain ⟨b, hb, hz⟩ := FindInSortedArray_sound _ _ _ hf
  exact absurd ((compareSlot_eq_zero_iff s b).1 hz) (hno s hs b (List.getElem?_mem hb))

/-- C8: when no request names an entry of the binding list, which includes the
empty list and the empty request sequence, `AssignBindingSlots` returns 0 and
leaves the binding list as it was, whatever the ascending flag. -/
theorem AssignBindingSlots_unmatched (bindings_ : List ModuleBinding)
    (iter : List BindingSlot) (dstSet : Nat) (ascending : Bool)
    (hno : ∀ s ∈ iter, ∀ b ∈ bindings_,
      ¬ (s.set = b.srcDescriptorSet ∧ s.index = b.srcBinding)) :
    AssignBindingSlots bindings_ iter dstSet ascending = (0, bindings_) :=
  AssignBindingSlots_of_no_match bindings_ iter dstSet ascending hno

/-- Witness for C8: two requests that name no entry of the sample layout. -/
theorem AssignBindingSlots_unmatched_witness :
    (∀ s ∈ [BindingSlot.mk 0 2, BindingSlot.mk 3 0], ∀ b ∈ sampleLayout,
      ¬ (s.set = b.srcDescriptorSet ∧ s.index = b.srcBinding)) ∧
    AssignBindingSlots sampleLayout [⟨0, 2⟩, ⟨3, 0⟩] 7 true = (0, sampleLayout) :=
  ⟨by decide, AssignBindingSlots_unmatched sampleLayout [⟨0, 2⟩, ⟨3, 0⟩] 7 true (by decide)⟩

/-- C10: when the reflection capability is absent or the reflector fails,
`BuildFromSpirvModule` returns false and leaves the binding list as it was; on a
fresh, empty layout every later `AssignBindingSlots` returns 0 and every later
`UpdateSpirvModule` leaves the buffer as it was. -/
theorem BuildFromSpirvModule_failure (enabled : Bool)
    (reflect : SpirvModuleView → SpirvResult × List SpvBindingPoint)
    (bindings_ : List ModuleBinding) (data : List Nat) (size : Nat)
    (hfail : enabled = false ∨
      (reflect (SpirvModuleView.ofData data size)).1 ≠ SpirvResult.Success) :
    BuildFromSpirvModule enabled reflect bindings_ data size = (false, bindings_) ∧
    (bindings_ = [] →
      (∀ (iter : List BindingSlot) (dstSet : Nat) (ascending : Bool),
        AssignBindingSlots (BuildFromSpirvModule enabled reflect bindings_ data size).2
          iter dstSet ascending = (0, [])) ∧
      (∀ (words : List Nat) (n : Nat),
        UpdateSpirvModule (BuildFromSpirvModule enabled reflect bindings_ data size).2
          words n = words)) := by
  rw [BuildFromSpirvModule_of_failure enabled reflect bindings_ data size hfail]
  refine ⟨rfl, ?_⟩
  rintro rfl
  refine ⟨fun iter dstSet ascending => ?_, fun words n => rfl⟩
  exact AssignBindingSlots_of_no_match [] iter dstSet ascending (by simp)

/-- Witness for C10: the sample module without the reflection capability, and
with a reflector that fails. -/
theorem BuildFromSpirvModule_failure_witness :
    (false = false ∨
      (sampleReflect (SpirvModuleView.ofData sampleData 48)).1 ≠ SpirvResult.Success) ∧
    BuildFromSpirvModule false sampleReflect [] sampleData 48 = (false, []) ∧
    (true = false ∨
      (failingReflect (SpirvModuleView.ofData sampleData 48)).1 ≠ SpirvResult.Success) ∧
    BuildFromSpirvModule true failingReflect sampleLayout sampleData 48 = (false, sampleLayout) :=
  ⟨Or.inl rfl,
    (BuildFromSpirvModule_failure false sampleReflect [] sampleData 48 (Or.inl rfl)).1,
    Or.inr (by decide),
    (BuildFromSpirvModule_failure true failingReflect sampleLayout sampleData 48
      (Or.inr (by decide))).1⟩

theorem AssignBindingSlots_single (bs : List ModuleBinding) (slot : BindingSlot)
    (dstSet : Nat) (asc : Bool) :
    AssignBindingSlots bs [slot] dstSet asc =
      ((assignStep dstSet asc 0 (bs, 0) slot).2, (assignStep dstSet asc 0 (bs, 0) slot).1) := rfl

theorem assignStep_fst (dstSet : Nat) (asc : Bool) (bs : List ModuleBinding) (n : Nat)
    (slot : BindingSlot) :
    (assignStep dstSet asc 0 (bs, n) slot).1 = (AssignBindingSlots bs [slot] dstSet asc).2 := by
  rw [AssignBindingSlots_single]
  cases hf : FindInSortedArray bs (compareSlot slot) with
  | none =>
    rw [assignStep_of_none _ _ _ (bs, n) _ hf, assignStep_of_none _ _ _ (bs, 0) _ hf]
  | some i =>
    obtain ⟨b, hb, _, heq⟩ := assignStep_of_some dstSet asc 0 (bs, n) slot i hf
    obtain ⟨b2, hb2, _, heq2⟩ := assignStep_of_some dstSet asc 0 (bs, 0) slot i hf
    simp only at hb hb2
    rw [hb] at hb2
    simp only [Option.some.injEq] at hb2
    subst hb2
    rw [heq, heq2]

theorem assignStep_snd (dstSet : Nat) (asc : Bool) (bs : List ModuleBinding) (n : Nat)
    (slot : BindingSlot) :
    (assignStep dstSet asc 0 (bs, n) slot).2 =
      if requestChanges dstSet asc bs slot then (n + 1) % 4294967296 else n := by
  unfold requestChanges
  cases hf : FindInSortedArray bs (compareSlot slot) with
  | none =>
    rw [assignStep_of_none _ _ _ (bs, n) _ hf]
    simp
  | some i =>
    obtain ⟨b, hb, _, heq⟩ := assignStep_of_some dstSet asc 0 (bs, n) slot i hf
    simp only at hb
    have hlt : i < bs.length := (List.getElem?_eq_some.1 hb).1
    rw [← assignStep_fst dstSet asc bs n slot, heq]
    simp only [List.getElem?_set_self hlt, hb, Option.map_some', ne_eq, Option.some.injEq]
    by_cases hmod : (AssignBindingSlot b slot dstSet (if asc then some 0 else none)).2 = true
    · have := (AssignBindingSlot_modified_iff b slot dstSet _).1 hmod
      simp [hmod, this]
    · have hne : ¬ dstPair (AssignBindingSlot b slot dstSet (if asc then some 0 else none)).1 ≠
          dstPair b := fun h => hmod ((AssignBindingSlot_modified_iff b slot dstSet _).2 h)
      simp only [ne_eq, not_not] at hne
      simp [hmod, hne]

theorem changedRequestCount_le (dstSet : Nat) (asc : Bool) (iter : List BindingSlot)
    (bs : List ModuleBinding) : changedRequestCount dstSet asc bs iter ≤ iter.length := by
  induction iter generalizing bs with
  | nil => simp [changedRequestCount]
  | cons s rest ih =>
    unfold changedRequestCount
    have := ih (AssignBindingSlots bs [s] dstSet asc).2
    simp only [List.length_cons]
    split_ifs <;> omega

theorem foldl_assignStep_snd (dstSet : Nat) (asc : Bool) (iter : List BindingSlot)
    (bs : List ModuleBinding) (n : Nat) (hn : n < 4294967296) :
    (iter.foldl (assignStep dstSet asc 0) (bs, n)).2 =
      (n + changedRequestCount dstSet asc bs iter) % 4294967296 := by
  induction iter generalizing bs n with
  | nil =>
    simp only [List.foldl_nil, changedRequestCount]
    omega
  | cons s rest ih =>
    have hpair : assignStep dstSet asc 0 (bs, n) s =
        ((AssignBindingSlots bs [s] dstSet asc).2,
          if requestChanges dstSet asc bs s then (n + 1) % 4294967296 else n) := by
      rw [← assignStep_fst dstSet asc bs n s, ← assignStep_snd]
    rw [List.foldl_cons, hpair]
    unfold changedRequestCount
    by_cases hc : requestChanges dstSet asc bs s = true
    · simp only [hc, if_true]
      rw [ih _ _ (by omega)]
      omega
    · simp only [hc, Bool.false_eq_true, if_false]
      rw [ih _ _ hn]
      omega

/-- C7: for a call with fewer than `2 ^ 32` requests, the range in which the
32-bit result cannot wrap around, the value that `AssignBindingSlots` returns is
the number of requests that found an entry and changed its `dstDescriptorSet`
or `dstBinding`; and a request that finds an entry which already holds the
destination handed out by the call leaves the list as it is and counts 0. -/
theorem AssignBindingSlots_count (bindings_ : List ModuleBinding) (iter : List BindingSlot)
    (dstSet : Nat) (ascending : Bool) (hlen : iter.length < 4294967296) :
    (AssignBindingSlots bindings_ iter dstSet ascending).1 =
      changedRequestCount dstSet ascending bindings_ iter ∧
    ∀ (bs : List ModuleBinding) (slot : BindingSlot) (i : Nat) (b : ModuleBinding),
      FindInSortedArray bs (compareSlot slot) = some i → bs[i]? = some b →
      b.dstDescriptorSet = dstSet → (ascending = true → b.dstBinding = 0) →
      AssignBindingSlots bs [slot] dstSet ascending = (0, bs) := by
  constructor
  · have h := foldl_assignStep_snd dstSet ascending iter bindings_ 0 (by omega)
    have hle := changedRequestCount_le dstSet ascending iter bindings_
    unfold AssignBindingSlots
    simp only
    rw [h]
    omega
  · intro bs slot i b hf hb h1 h2
    rw [AssignBindingSlots_single, assignStep_eq_self dstSet ascending (bs, 0) slot]
    intro j hj
    simp only at hj ⊢
    rw [hf] at hj
    simp only [Option.some.injEq] at hj
    subst hj
    exact ⟨b, hb, h1, h2⟩

/-- Witness for C7: four requests on the sample layout, one of them unmatched
and one repeated. -/
theorem AssignBindingSlots_count_witness :
    ([BindingSlot.mk 0 1, BindingSlot.mk 2 2, BindingSlot.mk 0 1, BindingSlot.mk 1 0].length
      < 4294967296) ∧
    (AssignBindingSlots sampleLayout [⟨0, 1⟩, ⟨2, 2⟩, ⟨0, 1⟩, ⟨1, 0⟩] 1 true).1 =
      changedRequestCount 1 true sampleLayout [⟨0, 1⟩, ⟨2, 2⟩, ⟨0, 1⟩, ⟨1, 0⟩] ∧
    changedRequestCount 1 true sampleLayout [⟨0, 1⟩, ⟨2, 2⟩, ⟨0, 1⟩, ⟨1, 0⟩] = 1 :=
  ⟨by decide,
    (AssignBindingSlots_count sampleLayout [⟨0, 1⟩, ⟨2, 2⟩, ⟨0, 1⟩, ⟨1, 0⟩] 1 true
      (by decide)).1,
    by decide⟩


theorem SortedBySrc_getElem? (bs : List ModuleBinding) (h : SortedBySrc bs) (i j : Nat)
    (a b : ModuleBinding) (hij : i < j) (ha : bs[i]? = some a) (hb : bs[j]? = some b) :
    srcKeyLe a b := by
  obtain ⟨hi, rfl⟩ := List.getElem?_eq_some.1 ha
  obtain ⟨hj, rfl⟩ := List.getElem?_eq_some.1 hb
  exact (List.pairwise_iff_getElem.1 h) i j hi hj hij

theorem DistinctSrc_getElem? (bs : List ModuleBinding) (h : DistinctSrc bs) (i j : Nat)
    (a b : ModuleBinding) (ha : bs[i]? = some a) (hb : bs[j]? = some b)
    (hkey : srcKey a = srcKey b) : i = j := by
  obtain ⟨hi, rfl⟩ := List.getElem?_eq_some.1 ha
  obtain ⟨hj, rfl⟩ := List.getElem?_eq_some.1 hb
  unfold srcKey at hkey
  simp only [Prod.mk.injEq] at hkey
  rcases Nat.lt_trichotomy i j with hlt | heq | hgt
  · exact absurd hkey ((List.pairwise_iff_getElem.1 h) i j hi hj hlt)
  · exact heq
  · exact absurd ⟨hkey.1.symm, hkey.2.symm⟩ ((List.pairwise_iff_getElem.1 h) j i hj hi hgt)

theorem SortedBySrc_congr (bs bs2 : List ModuleBinding) (hkeys : bs2.map srcKey = bs.map srcKey)
    (h : SortedBySrc bs) : SortedBySrc bs2 := by
  have key : ∀ l : List ModuleBinding, SortedBySrc l ↔
      (l.map srcKey).Pairwise (fun x y => x.1 < y.1 ∨ (x.1 = y.1 ∧ x.2 ≤ y.2)) := by
    intro l
    rw [List.pairwise_map]
    rfl
  rw [key, hkeys, ← key]
  exact h

theorem DistinctSrc_congr (bs bs2 : List ModuleBinding) (hkeys : bs2.map srcKey = bs.map srcKey)
    (h : DistinctSrc bs) : DistinctSrc bs2 := by
  have key : ∀ l : List ModuleBinding, DistinctSrc l ↔
      (l.map srcKey).Pairwise (fun x y => ¬ (x.1 = y.1 ∧ x.2 = y.2)) := by
    intro l
    rw [List.pairwise_map]
    rfl
  rw [key, hkeys, ← key]
  exact h

/-- The source order of the binding list survives every call of
`AssignBindingSlots`. -/
theorem AssignBindingSlots_sortedBySrc (bs : List ModuleBinding) (iter : List BindingSlot)
    (dstSet : Nat) (asc : Bool) (h : SortedBySrc bs) :
    SortedBySrc (AssignBindingSlots bs iter dstSet asc).2 :=
  SortedBySrc_congr _ _ (foldl_assignStep_srcKey dstSet asc 0 iter (bs, 0)) h

/-- On a list in ascending source order the binary search finds an entry
whenever the index range contains one that the request names. -/
theorem findLoop_complete (data : List ModuleBinding) (slot : BindingSlot)
    (hsorted : SortedBySrc data) (fuel first last : Nat) (hfuel : last - first ≤ fuel)
    (hlast : last ≤ data.length) (i : Nat) (hi1 : first ≤ i) (hi2 : i < last)
    (b : ModuleBinding) (hb : data[i]? = some b) (hm : Matches slot b) :
    ∃ j, findLoop data (compareSlot slot) fuel first last = some j := by
  induction fuel generalizing first last with
  | zero => omega
  | succ fuel ih =>
    unfold findLoop
    have hlt : first < last := by omega
    simp only [hlt, if_true]
    have hidx : (first + last) / 2 < data.length := by omega
    have he : data[(first + last) / 2]? = some data[(first + last) / 2] :=
      List.getElem?_eq_getElem hidx
    rw [he]
    simp only
    unfold Matches at hm
    split_ifs with hpos hneg
    · have hpos2 := (compareSlot_pos_iff slot _).1 hpos
      have hgt : (first + last) / 2 < i := by
        by_contra hcon
        rcases Nat.lt_or_eq_of_le (Nat.le_of_not_lt hcon) with h1 | h1
        · have := SortedBySrc_getElem? data hsorted _ _ _ _ h1 hb he
          unfold srcKeyLe at this
          omega
        · rw [h1, he] at hb
          simp only [Option.some.injEq] at hb
          rw [hb] at hpos2
          omega
      exact ih _ _ (by omega) hlast (by omega) hi2
    · have hneg2 := (compareSlot_neg_iff slot _).1 hneg
      have hgt : i < (first + last) / 2 := by
        by_contra hcon
        rcases Nat.lt_or_eq_of_le (Nat.le_of_not_lt hcon) with h1 | h1
        · have := SortedBySrc_getElem? data hsorted _ _ _ _ h1 he hb
          unfold srcKeyLe at this
          omega
        · rw [← h1, he] at hb
          simp only [Option.some.injEq] at hb
          rw [hb] at hneg2
          omega
      exact ih _ _ (by omega) (by omega) hi1 hgt
    · exact ⟨_, rfl⟩

theorem FindInSortedArray_complete (data : List ModuleBinding) (slot : BindingSlot)
    (hsorted : SortedBySrc data) (i : Nat) (b : ModuleBinding) (hb : data[i]? = some b)
    (hm : Matches slot b) :
    ∃ j e, FindInSortedArray data (compareSlot slot) = some j ∧ data[j]? = some e ∧
      Matches slot e := by
  have hi : i < data.length := (List.getElem?_eq_some.1 hb).1
  obtain ⟨j, hj⟩ := findLoop_complete data slot hsorted data.length 0 data.length (by omega)
    (Nat.le_refl _) i (Nat.zero_le _) hi b hb hm
  obtain ⟨e, he, hz⟩ := FindInSortedArray_sound data (compareSlot slot) j hj
  exact ⟨j, e, hj, he, (compareSlot_eq_zero_iff slot e).1 hz⟩

theorem Matches_congr (slot : BindingSlot) (a b : ModuleBinding) (h : srcKey a = srcKey b) :
    Matches slot a ↔ Matches slot b := by
  unfold srcKey at h
  simp only [Prod.mk.injEq] at h
  unfold Matches
  rw [h.1, h.2]

theorem srcKey_eq_of_Matches (slot : BindingSlot) (a b : ModuleBinding) (ha : Matches slot a)
    (hb : Matches slot b) : srcKey a = srcKey b := by
  unfold Matches at ha hb
  unfold srcKey
  rw [← ha.1, ← ha.2, ← hb.1, ← hb.2]


/-- One loop iteration of a call without ascending order, seen from one entry
of a sorted binding list with distinct source keys. -/
theorem assignStep_nonAscending_entry (dstSet : Nat) (state : List ModuleBinding × Nat)
    (slot : BindingSlot) (hsorted : SortedBySrc state.1) (hdistinct : DistinctSrc state.1)
    (i : Nat) (b : ModuleBinding) (hb : state.1[i]? = some b) :
    ∃ b1, (assignStep dstSet false 0 state slot).1[i]? = some b1 ∧ srcKey b1 = srcKey b ∧
      b1.dstBinding = b.dstBinding ∧ (Matches slot b → b1.dstDescriptorSet = dstSet) ∧
      (¬ Matches slot b → b1 = b) := by
  cases hf : FindInSortedArray state.1 (compareSlot slot) with
  | none =>
    rw [assignStep_of_none _ _ _ _ _ hf]
    refine ⟨b, hb, rfl, rfl, fun hm => ?_, fun _ => rfl⟩
    obtain ⟨j, _, hj, _, _⟩ := FindInSortedArray_complete state.1 slot hsorted i b hb hm
    rw [hf] at hj
    simp at hj
  | some j =>
    obtain ⟨bj, hbj, hmj, heq⟩ := assignStep_of_some dstSet false 0 state slot j hf
    rw [heq]
    simp only [Bool.false_eq_true, if_false]
    by_cases hji : j = i
    · subst hji
      rw [hb] at hbj
      simp only [Option.some.injEq] at hbj
      subst hbj
      have hlt : j < state.1.length := (List.getElem?_eq_some.1 hb).1
      have hd := AssignBindingSlot_dst b slot dstSet none
      refine ⟨_, by simp [List.getElem?_set_self hlt], AssignBindingSlot_srcKey _ _ _ _,
        hd.2.2 rfl, fun _ => hd.1, fun hn => absurd hmj hn⟩
    · refine ⟨b, by rw [List.getElem?_set_ne hji]; exact hb, rfl, rfl, fun hm => ?_, fun _ => rfl⟩
      exact absurd (DistinctSrc_getElem? state.1 hdistinct j i bj b hbj hb
        (srcKey_eq_of_Matches slot bj b hmj hm)) hji

theorem foldl_assignStep_nonAscending_entry (dstSet : Nat) (iter : List BindingSlot)
    (state : List ModuleBinding × Nat) (hsorted : SortedBySrc state.1)
    (hdistinct : DistinctSrc state.1) (i : Nat) (b : ModuleBinding)
    (hb : state.1[i]? = some b) :
    ∃ b2, (iter.foldl (assignStep dstSet false 0) state).1[i]? = some b2 ∧
      srcKey b2 = srcKey b ∧ b2.dstBinding = b.dstBinding ∧
      ((∃ s ∈ iter, Matches s b) → b2.dstDescriptorSet = dstSet) ∧
      ((¬ ∃ s ∈ iter, Matches s b) → b2 = b) := by
  induction iter generalizing state b with
  | nil => exact ⟨b, hb, rfl, rfl, fun h => by simp at h, fun _ => rfl⟩
  | cons r rest ih =>
    rw [List.foldl_cons]
    obtain ⟨b1, hb1, hk1, hbind1, hm1, hn1⟩ :=
      assignStep_nonAscending_entry dstSet state r hsorted hdistinct i b hb
    have hkeys := assignStep_srcKey dstSet false 0 state r
    obtain ⟨b2, hb2, hk2, hbind2, hm2, hn2⟩ := ih (assignStep dstSet false 0 state r)
      (SortedBySrc_congr _ _ hkeys hsorted) (DistinctSrc_congr _ _ hkeys hdistinct) b1 hb1
    refine ⟨b2, hb2, hk2.trans hk1, hbind2.trans hbind1, ?_, ?_⟩
    · rintro ⟨s, hs, hms⟩
      by_cases hrest : ∃ t ∈ rest, Matches t b1
      · exact hm2 hrest
      · rw [hn2 hrest]
        rcases List.mem_cons.1 hs with h | h
        · subst h
          exact hm1 hms
        · exact absurd ⟨s, h, (Matches_congr s b1 b hk1).2 hms⟩ hrest
    · intro hnone
      have h1 : ¬ Matches r b := fun h => hnone ⟨r, List.mem_cons_self _ _, h⟩
      have h2 : ¬ ∃ t ∈ rest, Matches t b1 := by
        rintro ⟨t, ht, hmt⟩
        exact hnone ⟨t, List.mem_cons_of_mem _ ht, (Matches_congr t b1 b hk1).1 hmt⟩
      rw [hn2 h2, hn1 h1]

theorem foldl_assignStep_length (dstSet : Nat) (asc : Bool) (c : Nat)
    (iter : List BindingSlot) (state : List ModuleBinding × Nat) :
    (iter.foldl (assignStep dstSet asc c) state).1.length = state.1.length := by
  have h := congrArg List.length (foldl_assignStep_srcKey dstSet asc c iter state)
  simpa using h

/-- C5: on a binding list in ascending source order with pairwise distinct
`(srcDescriptorSet, srcBinding)`, a call of `AssignBindingSlots` without
ascending order keeps the number of entries and every entry's `dstBinding`,
gives `dstDescriptorSet = dstSet` to every entry that some request names, and
leaves every other entry entirely as it was. -/
theorem AssignBindingSlots_nonAscending (bindings_ : List ModuleBinding)
    (iter : List BindingSlot) (dstSet : Nat)
    (hsorted : bindings_.Pairwise (fun a b => a.srcDescriptorSet < b.srcDescriptorSet ∨
      (a.srcDescriptorSet = b.srcDescriptorSet ∧ a.srcBinding ≤ b.srcBinding)))
    (hdistinct : bindings_.Pairwise (fun a b =>
      ¬ (a.srcDescriptorSet = b.srcDescriptorSet ∧ a.srcBinding = b.srcBinding))) :
    (AssignBindingSlots bindings_ iter dstSet false).2.length = bindings_.length ∧
    ∀ (i : Nat) (b : ModuleBinding), bindings_[i]? = some b →
      ∃ b2, (AssignBindingSlots bindings_ iter dstSet false).2[i]? = some b2 ∧
        b2.dstBinding = b.dstBinding ∧
        ((∃ s ∈ iter, s.set = b.srcDescriptorSet ∧ s.index = b.srcBinding) →
          b2.dstDescriptorSet = dstSet) ∧
        ((¬ ∃ s ∈ iter, s.set = b.srcDescriptorSet ∧ s.index = b.srcBinding) → b2 = b) := by
  refine ⟨foldl_assignStep_length dstSet false 0 iter (bindings_, 0), fun i b hb => ?_⟩
  obtain ⟨b2, hb2, _, hbind, hm, hn⟩ :=
    foldl_assignStep_nonAscending_entry dstSet iter (bindings_, 0) hsorted hdistinct i b hb
  exact ⟨b2, hb2, hbind, hm, hn⟩

/-- Witness for C5: the sample layout, with one request that names an entry and
one that names none. -/
theorem AssignBindingSlots_nonAscending_witness :
    (sampleLayout.Pairwise (fun a b => a.srcDescriptorSet < b.srcDescriptorSet ∨
      (a.srcDescriptorSet = b.srcDescriptorSet ∧ a.srcBinding ≤ b.srcBinding))) ∧
    (sampleLayout.Pairwise (fun a b =>
      ¬ (a.srcDescriptorSet = b.srcDescriptorSet ∧ a.srcBinding = b.srcBinding))) ∧
    (AssignBindingSlots sampleLayout [⟨0, 1⟩, ⟨4, 4⟩] 6 false).2.length = sampleLayout.length ∧
    (AssignBindingSlots sampleLayout [⟨0, 1⟩, ⟨4, 4⟩] 6 false).2 =
      [⟨0, 0, 0, 0, 3, 4⟩, ⟨0, 1, 6, 1, 7, 8⟩, ⟨1, 0, 1, 0, 10, 11⟩] :=
  ⟨by decide, by decide,
    (AssignBindingSlots_nonAscending sampleLayout [⟨0, 1⟩, ⟨4, 4⟩] 6 (by decide) (by decide)).1,
    by decide⟩

/-- C4 (evaluation at the failing input): on the layout built from the two
bindings `(0, 0)` and `(0, 1)`, the ascending call with the requests `(0, 0)`
and `(0, 1)` leaves the entry of the second request with `dstBinding = 0`, not
`1`; the call returns 1. -/
theorem AssignBindingSlots_ascending_sample :
    twoBindings = [⟨0, 0, 0, 0, 3, 4⟩, ⟨0, 1, 0, 1, 7, 8⟩] ∧
    AssignBindingSlots twoBindings [⟨0, 0⟩, ⟨0, 1⟩] 0 true =
      (1, [⟨0, 0, 0, 0, 3, 4⟩, ⟨0, 1, 0, 0, 7, 8⟩]) := by
  decide

/-! ## The header fields and the word count -/

/-- C16: when `ReadHeader` returns `Success`, the five fields of the output
header (magic, version, generator, bound, schema) are the words 0 to 4 of the
module in that order; when it returns `InvalidModule` or `InvalidHeader`, the
output header is the caller's header as it was before the call. This holds for
`SpirvModule` and for `SpirvModuleView`. -/
theorem ReadHeader_output (MagicNumber : Nat) (words : List Nat) (outHeader : SpirvHeader) :
    (((SpirvModule.mk words).ReadHeader MagicNumber outHeader).1 = SpirvResult.Success →
      words[0]? = some ((SpirvModule.mk words).ReadHeader MagicNumber outHeader).2.spirvMagic ∧
      words[1]? = some ((SpirvModule.mk words).ReadHeader MagicNumber outHeader).2.spirvVersion ∧
      words[2]? = some ((SpirvModule.mk words).ReadHeader MagicNumber outHeader).2.generatorMagic ∧
      words[3]? = some ((SpirvModule.mk words).ReadHeader MagicNumber outHeader).2.idBound ∧
      words[4]? = some ((SpirvModule.mk words).ReadHeader MagicNumber outHeader).2.schema) ∧
    (((SpirvModule.mk words).ReadHeader MagicNumber outHeader).1 ≠ SpirvResult.Success →
      ((SpirvModule.mk words).ReadHeader MagicNumber outHeader).2 = outHeader) ∧
    (SpirvModuleView.mk words).ReadHeader MagicNumber outHeader =
      (SpirvModule.mk words).ReadHeader MagicNumber outHeader := by
  refine ⟨?_, ?_, rfl⟩
  · unfold SpirvModule.ReadHeader ReadSpirvHeader SpirvHeaderWords headerOfWords
    simp only
    split_ifs with h1 h2
    · intro h; simp at h
    · intro h; simp at h
    · intro _
      have h5 : 5 ≤ words.length := by omega
      match words, h5 with
      | w0 :: w1 :: w2 :: w3 :: w4 :: rest, _ => simp
  · unfold SpirvModule.ReadHeader ReadSpirvHeader
    simp only
    split_ifs with h1 h2
    · intro _; rfl
    · intro _; rfl
    · intro h; simp at h

theorem wordsOfBytes_length (pack : Nat → Nat → Nat → Nat → Nat) (bytes : List Nat) :
    (wordsOfBytes pack bytes).length = bytes.length / 4 := by
  induction bytes using wordsOfBytes.induct pack with
  | case1 b0 b1 b2 b3 rest ih =>
    simp only [wordsOfBytes, List.length_cons, ih]
    omega
  | case2 l hl =>
    have hlt : l.length < 4 := by
      match l, hl with
      | [], _ => simp
      | [_], _ => simp
      | [_, _], _ => simp
      | [_, _, _], _ => simp
      | a :: b :: c :: d :: rest, hl => exact absurd rfl (hl a b c d rest)
    rw [wordsOfBytes]
    · simp
      omega
    · exact hl

theorem wordsOfBytes_take (pack : Nat → Nat → Nat → Nat → Nat) (k : Nat) (bytes : List Nat) :
    (wordsOfBytes pack bytes).take k = wordsOfBytes pack (bytes.take (4 * k)) := by
  induction k generalizing bytes with
  | zero => simp [wordsOfBytes]
  | succ k ih =>
    match bytes with
    | [] => simp [wordsOfBytes]
    | [_] => simp [wordsOfBytes]
    | [_, _] => simp [wordsOfBytes]
    | [_, _, _] => simp [wordsOfBytes]
    | b0 :: b1 :: b2 :: b3 :: rest =>
      have h4 : 4 * (k + 1) = 4 * k + 1 + 1 + 1 + 1 := by omega
      rw [h4]
      simp only [wordsOfBytes, List.take_succ_cons, ih]

/-- C17: a `SpirvModule` or `SpirvModuleView` constructed from a pointer to a
buffer of at least `n` bytes and the byte size `n` holds exactly `n / 4` words;
they are the first `n / 4` words of the buffer in order, made of its first
`4 * (n / 4)` bytes, so that the `n % 4 ≤ 3` bytes after them are not part of
the module. -/
theorem ofData_words (pack : Nat → Nat → Nat → Nat → Nat) (bytes : List Nat) (n : Nat)
    (hn : n ≤ bytes.length) :
    (SpirvModule.ofData (wordsOfBytes pack bytes) n).words_.length = n / 4 ∧
    (∀ i, i < n / 4 →
      (SpirvModule.ofData (wordsOfBytes pack bytes) n).words_[i]? = (wordsOfBytes pack bytes)[i]?) ∧
    (SpirvModule.ofData (wordsOfBytes pack bytes) n).words_ =
      wordsOfBytes pack (bytes.take (4 * (n / 4))) ∧
    n - 4 * (n / 4) ≤ 3 ∧
    (SpirvModuleView.ofData (wordsOfBytes pack bytes) n).words_ =
      (SpirvModule.ofData (wordsOfBytes pack bytes) n).words_ := by
  refine ⟨?_, ?_, wordsOfBytes_take pack _ _, by omega, rfl⟩
  · show ((wordsOfBytes pack bytes).take (n / 4)).length = n / 4
    rw [List.length_take, wordsOfBytes_length]
    omega
  · intro i hi
    show ((wordsOfBytes pack bytes).take (n / 4))[i]? = (wordsOfBytes pack bytes)[i]?
    rw [List.getElem?_take]
    simp [hi]

/-- Witness for C17: a buffer of eleven bytes with the byte size 10 gives the
two words made of its first eight bytes. -/
theorem ofData_words_witness :
    (10 ≤ [3, 2, 35, 7, 0, 0, 1, 0, 9, 9, 9].length) ∧
    (SpirvModule.ofData (wordsOfBytes packLE [3, 2, 35, 7, 0, 0, 1, 0, 9, 9, 9]) 10).words_.length
      = 10 / 4 ∧
    (SpirvModule.ofData (wordsOfBytes packLE [3, 2, 35, 7, 0, 0, 1, 0, 9, 9, 9]) 10).words_ =
      [119734787, 65536] :=
  ⟨by decide, (ofData_words packLE [3, 2, 35, 7, 0, 0, 1, 0, 9, 9, 9] 10 (by decide)).1,
    by decide⟩

/-! ## What the patch stores -/

theorem set_getElem?_map (l : List Nat) (i v j : Nat) :
    (l.set i v)[j]? = (l[j]?).map (fun old => if i = j then v else old) := by
  by_cases hij : i = j
  · subst hij
    rw [List.getElem?_set_self']
    simp only [if_true]
    rfl
  · rw [List.getElem?_set_ne hij]
    simp [hij]

theorem updateStep_getElem? (numWords : Nat) (words : List Nat) (b : ModuleBinding) (j : Nat) :
    (updateStep numWords words b)[j]? =
      (words[j]?).map (fun old => (storeOf numWords b j).getD old) := by
  unfold updateStep
  by_cases h1 : b.spirvDescriptorSet < numWords <;> by_cases h2 : b.spirvBinding < numWords
  · simp only [h1, h2, if_true, set_getElem?_map, Option.map_map]
    congr 1
    funext old
    unfold storeOf
    simp only [Function.comp, h1, h2, true_and]
    split_ifs <;> rfl
  · simp only [h1, h2, if_true, if_false, set_getElem?_map]
    congr 1
    funext old
    unfold storeOf
    simp only [h1, h2, true_and, false_and, if_false]
    split_ifs <;> rfl
  · simp only [h1, h2, if_true, if_false, set_getElem?_map]
    congr 1
    funext old
    unfold storeOf
    simp only [h1, h2, true_and, false_and, if_false]
    split_ifs <;> rfl
  · simp only [h1, h2, if_false]
    unfold storeOf
    simp [h1, h2]

theorem foldl_updateStep_getElem? (numWords : Nat) (bs : List ModuleBinding)
    (words : List Nat) (j : Nat) :
    (bs.foldl (updateStep numWords) words)[j]? =
      (words[j]?).map (fun old => (lastStore numWords bs j).getD old) := by
  induction bs generalizing words with
  | nil => simp [lastStore]
  | cons b rest ih =>
    rw [List.foldl_cons, ih, updateStep_getElem?, Option.map_map]
    congr 1
    funext old
    simp only [Function.comp, lastStore]
    cases lastStore numWords rest j <;> rfl

/-- C20: `UpdateSpirvModule` applied to its own result gives that result
again, for every binding list, word sequence and byte size, also when several
entries record the same word offset. -/
theorem UpdateSpirvModule_idempotent (bindings_ : List ModuleBinding) (data : List Nat)
    (size : Nat) :
    UpdateSpirvModule bindings_ (UpdateSpirvModule bindings_ data size) size =
      UpdateSpirvModule bindings_ data size := by
  unfold UpdateSpirvModule
  simp only
  apply List.ext_getElem?
  intro j
  rw [foldl_updateStep_getElem?, foldl_updateStep_getElem?, Option.map_map]
  congr 1
  funext old
  simp only [Function.comp]
  cases lastStore (size / 4) bindings_ j <;> rfl

theorem storeOf_eq_none (numWords : Nat) (b : ModuleBinding) (j : Nat)
    (h1 : b.spirvDescriptorSet ≠ j) (h2 : b.spirvBinding ≠ j) : storeOf numWords b j = none := by
  unfold storeOf
  simp [h1, h2]

theorem lastStore_eq_none (numWords : Nat) (bs : List ModuleBinding) (j : Nat)
    (h : j ∉ wordOffsets bs) : lastStore numWords bs j = none := by
  induction bs with
  | nil => rfl
  | cons b rest ih =>
    simp only [wordOffsets, List.mem_cons, not_or] at h
    simp only [lastStore, ih h.2.2]
    exact storeOf_eq_none numWords b j (fun e => h.1 e.symm) (fun e => h.2.1 e.symm)

theorem mem_wordOffsets (bs : List ModuleBinding) (b : ModuleBinding) (hb : b ∈ bs) :
    b.spirvDescriptorSet ∈ wordOffsets bs ∧ b.spirvBinding ∈ wordOffsets bs := by
  induction bs with
  | nil => simp at hb
  | cons c rest ih =>
    simp only [wordOffsets, List.mem_cons]
    rcases List.mem_cons.1 hb with h | h
    · subst h
      exact ⟨Or.inl rfl, Or.inr (Or.inl rfl)⟩
    · exact ⟨Or.inr (Or.inr (ih h).1), Or.inr (Or.inr (ih h).2)⟩

/-- With pairwise distinct recorded offsets, the last store at an offset of an
entry is the store of that entry. -/
theorem lastStore_of_nodup (numWords : Nat) (bs : List ModuleBinding)
    (hnodup : (wordOffsets bs).Nodup) (b : ModuleBinding) (hb : b ∈ bs) :
    (b.spirvDescriptorSet < numWords →
      lastStore numWords bs b.spirvDescriptorSet = some b.dstDescriptorSet) ∧
    (b.spirvBinding < numWords → lastStore numWords bs b.spirvBinding = some b.dstBinding) := by
  induction bs with
  | nil => simp at hb
  | cons c rest ih =>
    simp only [wordOffsets, List.nodup_cons, List.mem_cons, not_or] at hnodup
    obtain ⟨⟨hne, hc1⟩, hc2, hrest⟩ := hnodup
    rcases List.mem_cons.1 hb with h | h
    · subst h
      constructor
      · intro hlt
        simp only [lastStore, lastStore_eq_none numWords rest _ hc1]
        unfold storeOf
        have hne2 : ¬ b.spirvBinding = b.spirvDescriptorSet := fun e => hne e.symm
        simp [hlt, hne2]
      · intro hlt
        simp only [lastStore, lastStore_eq_none numWords rest _ hc2]
        unfold storeOf
        simp [hlt]
    · have := ih hrest h
      constructor
      · intro hlt
        simp only [lastStore, this.1 hlt]
      · intro hlt
        simp only [lastStore, this.2 hlt]

/-- C11: when the recorded word offsets of a layout are pairwise distinct, then
after `UpdateSpirvModule` every entry whose `spirvDescriptorSet` is below
`size / 4` finds its `dstDescriptorSet` in the buffer word at that offset, and
every entry whose `spirvBinding` is below `size / 4` finds its `dstBinding` in
the buffer word at that offset, each offset on its own; the buffer holds the
`size / 4` words that the caller announces. -/
theorem UpdateSpirvModule_stores (bindings_ : List ModuleBinding) (data : List Nat)
    (size : Nat) (hdistinct : (wordOffsets bindings_).Nodup) (hsize : size / 4 ≤ data.length) :
    ∀ b ∈ bindings_,
      (b.spirvDescriptorSet < size / 4 →
        (UpdateSpirvModule bindings_ data size)[b.spirvDescriptorSet]? =
          some b.dstDescriptorSet) ∧
      (b.spirvBinding < size / 4 →
        (UpdateSpirvModule bindings_ data size)[b.spirvBinding]? = some b.dstBinding) := by
  intro b hb
  have h := lastStore_of_nodup (size / 4) bindings_ hdistinct b hb
  unfold UpdateSpirvModule
  simp only
  constructor
  · intro hlt
    rw [foldl_updateStep_getElem?, h.1 hlt, List.getElem?_eq_getElem (by omega)]
    rfl
  · intro hlt
    rw [foldl_updateStep_getElem?, h.2 hlt, List.getElem?_eq_getElem (by omega)]
    rfl

/-- Witness for C11: the sample layout after a call that moves one entry to
descriptor set 6, patched into the sample module. -/
theorem UpdateSpirvModule_stores_witness :
    (wordOffsets (AssignBindingSlots sampleLayout [⟨0, 1⟩] 6 false).2).Nodup ∧
    48 / 4 ≤ sampleData.length ∧
    UpdateSpirvModule (AssignBindingSlots sampleLayout [⟨0, 1⟩] 6 false).2 sampleData 48 =
      [119734787, 65536, 0, 0, 0, 9, 9, 6, 1, 9, 1, 0] ∧
    ∀ b ∈ (AssignBindingSlots sampleLayout [⟨0, 1⟩] 6 false).2,
      (b.spirvDescriptorSet < 48 / 4 →
        (UpdateSpirvModule (AssignBindingSlots sampleLayout [⟨0, 1⟩] 6 false).2
          sampleData 48)[b.spirvDescriptorSet]? = some b.dstDescriptorSet) ∧
      (b.spirvBinding < 48 / 4 →
        (UpdateSpirvModule (AssignBindingSlots sampleLayout [⟨0, 1⟩] 6 false).2
          sampleData 48)[b.spirvBinding]? = some b.dstBinding) :=
  ⟨by decide, by decide, by decide,
    UpdateSpirvModule_stores (AssignBindingSlots sampleLayout [⟨0, 1⟩] 6 false).2 sampleData 48
      (by decide) (by decide)⟩

/-- The patch with two entries that share both word offsets: the later entry
wins at both, and patching again changes nothing. -/
theorem UpdateSpirvModule_sharedOffsets_sample :
    UpdateSpirvModule sharedOffsets [1, 1, 1, 1, 1] 20 = [1, 1, 1, 8, 7] ∧
    UpdateSpirvModule sharedOffsets (UpdateSpirvModule sharedOffsets [1, 1, 1, 1, 1] 20) 20 =
      [1, 1, 1, 8, 7] := by
  decide

/-! ## What assignment keeps -/

theorem AssignBindingSlot_fixedFields (b : ModuleBinding) (slot : BindingSlot) (dstSet : Nat)
    (p : Option Nat) : fixedFields (AssignBindingSlot b slot dstSet p).1 = fixedFields b := by
  unfold AssignBindingSlot fixedFields
  cases p <;> simp only <;> split_ifs <;> rfl

theorem assignStep_fixedFields (dstSet : Nat) (asc : Bool) (c : Nat)
    (state : List ModuleBinding × Nat) (slot : BindingSlot) :
    (assignStep dstSet asc c state slot).1.map fixedFields = state.1.map fixedFields := by
  cases h : FindInSortedArray state.1 (compareSlot slot) with
  | none => rw [assignStep_of_none _ _ _ _ _ h]
  | some i =>
    obtain ⟨b, hb, _, heq⟩ := assignStep_of_some dstSet asc c state slot i h
    rw [heq]
    simp only [List.map_set, AssignBindingSlot_fixedFields]
    apply set_eq_self_of_getElem?
    rw [List.getElem?_map, hb]
    rfl

theorem foldl_assignStep_fixedFields (dstSet : Nat) (asc : Bool) (c : Nat)
    (iter : List BindingSlot) (state : List ModuleBinding × Nat) :
    (iter.foldl (assignStep dstSet asc c) state).1.map fixedFields =
      state.1.map fixedFields := by
  induction iter generalizing state with
  | nil => rfl
  | cons s rest ih => rw [List.foldl_cons, ih, assignStep_fixedFields]

/-- C13: a call of `AssignBindingSlots` keeps the number and the order of the
entries and, entry by entry, the `srcDescriptorSet`, `srcBinding`,
`spirvDescriptorSet` and `spirvBinding`; only `dstDescriptorSet` and
`dstBinding` can differ afterwards. -/
theorem AssignBindingSlots_frame (bindings_ : List ModuleBinding) (iter : List BindingSlot)
    (dstSet : Nat) (ascending : Bool) :
    (AssignBindingSlots bindings_ iter dstSet ascending).2.length = bindings_.length ∧
    (AssignBindingSlots bindings_ iter dstSet ascending).2.map
        (fun b => (b.srcDescriptorSet, b.srcBinding, b.spirvDescriptorSet, b.spirvBinding)) =
      bindings_.map
        (fun b => (b.srcDescriptorSet, b.srcBinding, b.spirvDescriptorSet, b.spirvBinding)) :=
  ⟨foldl_assignStep_length dstSet ascending 0 iter (bindings_, 0),
    foldl_assignStep_fixedFields dstSet ascending 0 iter (bindings_, 0)⟩

/-- C18: in an ascending call the counter is 0 for every request: each entry
that a request of the call finds has `dstBinding = 0` and
`dstDescriptorSet = dstSet` when the call returns, wherever the request stands
in the sequence; the lookup of a request gives the same entry before and after
the call. -/
theorem AssignBindingSlots_ascending_zero (bindings_ : List ModuleBinding)
    (iter : List BindingSlot) (dstSet : Nat) :
    ∀ s ∈ iter,
      FindInSortedArray (AssignBindingSlots bindings_ iter dstSet true).2 (compareSlot s) =
        FindInSortedArray bindings_ (compareSlot s) ∧
      ∀ i, FindInSortedArray bindings_ (compareSlot s) = some i →
        ∃ b, (AssignBindingSlots bindings_ iter dstSet true).2[i]? = some b ∧
          b.dstBinding = 0 ∧ b.dstDescriptorSet = dstSet := by
  intro s hs
  refine ⟨FindInSortedArray_congr _ _ s
    (foldl_assignStep_srcKey dstSet true 0 iter (bindings_, 0)), fun i hf => ?_⟩
  obtain ⟨b, hb, hsettled⟩ := foldl_assignStep_settled dstSet true iter (bindings_, 0) s hs i hf
  exact ⟨b, hb, hsettled.2 rfl, hsettled.1⟩

/-- Witness for C18: three requests on the sample layout; the entries of all
three end with binding 0 in descriptor set 5. -/
theorem AssignBindingSlots_ascending_zero_witness :
    BindingSlot.mk 1 0 ∈ [BindingSlot.mk 0 0, BindingSlot.mk 0 1, BindingSlot.mk 1 0] ∧
    FindInSortedArray sampleLayout (compareSlot ⟨1, 0⟩) = some 2 ∧
    (AssignBindingSlots sampleLayout [⟨0, 0⟩, ⟨0, 1⟩, ⟨1, 0⟩] 5 true).2 =
      [⟨0, 0, 5, 0, 3, 4⟩, ⟨0, 1, 5, 0, 7, 8⟩, ⟨1, 0, 5, 0, 10, 11⟩] ∧
    ∃ b, (AssignBindingSlots sampleLayout [⟨0, 0⟩, ⟨0, 1⟩, ⟨1, 0⟩] 5 true).2[2]? = some b ∧
      b.dstBinding = 0 ∧ b.dstDescriptorSet = 5 :=
  ⟨by decide, by decide, by decide,
    (AssignBindingSlots_ascending_zero sampleLayout [⟨0, 0⟩, ⟨0, 1⟩, ⟨1, 0⟩] 5 ⟨1, 0⟩
      (by decide)).2 2 (by decide)⟩

/-! ## How often an entry can change -/

theorem countP_set_add (p : ModuleBinding → Bool) (l : List ModuleBinding) (i : Nat)
    (a b : ModuleBinding) (hb : l[i]? = some b) :
    (l.set i a).countP p + (if p b then 1 else 0) = l.countP p + (if p a then 1 else 0) := by
  induction l generalizing i with
  | nil => simp at hb
  | cons c rest ih =>
    cases i with
    | zero =>
      simp only [List.getElem?_cons_zero, Option.some.injEq] at hb
      subst hb
      simp only [List.set_cons_zero, List.countP_cons]
      omega
    | succ k =>
      simp only [List.getElem?_cons_succ] at hb
      simp only [List.set_cons_succ, List.countP_cons]
      have := ih k hb
      omega

/-- One request either changes nothing or changes an entry that did not hold
the destination, which holds it afterwards. -/
theorem unsettledCount_step (dstSet : Nat) (asc : Bool) (bs : List ModuleBinding)
    (slot : BindingSlot) :
    unsettledCount dstSet asc (AssignBindingSlots bs [slot] dstSet asc).2 +
        (if requestChanges dstSet asc bs slot then 1 else 0) ≤
      unsettledCount dstSet asc bs := by
  have hsnd := assignStep_snd dstSet asc bs 0 slot
  rw [← assignStep_fst dstSet asc bs 0 slot]
  cases hf : FindInSortedArray bs (compareSlot slot) with
  | none =>
    have hrc : requestChanges dstSet asc bs slot = false := by
      unfold requestChanges
      rw [hf]
    rw [assignStep_of_none _ _ _ (bs, 0) _ hf, hrc]
    simp
  | some i =>
    obtain ⟨b, hb, _, heq⟩ := assignStep_of_some dstSet asc 0 (bs, 0) slot i hf
    simp only at hb
    rw [heq] at hsnd ⊢
    simp only at hsnd ⊢
    have hcount := countP_set_add (fun b => !decide (Settled dstSet asc b)) bs i
      (AssignBindingSlot b slot dstSet (if asc then some 0 else none)).1 b hb
    have hsettled := AssignBindingSlot_settled b slot dstSet asc
    simp only [hsettled, decide_True, Bool.not_true, Bool.false_eq_true, if_false,
      Nat.add_zero] at hcount
    unfold unsettledCount
    by_cases hrc : requestChanges dstSet asc bs slot = true
    · simp only [hrc, if_true] at hsnd ⊢
      have hmod : (AssignBindingSlot b slot dstSet (if asc then some 0 else none)).2 = true := by
        by_contra hno
        simp only [hno, Bool.false_eq_true, if_false] at hsnd
        omega
      have hnot : ¬ Settled dstSet asc b := by
        intro hs
        rw [AssignBindingSlot_of_settled b slot dstSet asc hs] at hmod
        simp at hmod
      simp only [hnot, decide_False, Bool.not_false, if_true] at hcount
      omega
    · simp only [hrc, Bool.false_eq_true, if_false, Nat.add_zero]
      have hle : List.countP (fun b => !decide (Settled dstSet asc b))
          (bs.set i (AssignBindingSlot b slot dstSet (if asc then some 0 else none)).1) ≤
          List.countP (fun b => !decide (Settled dstSet asc b)) bs := by
        rw [← hcount]
        exact Nat.le_add_right _ _
      exact hle

theorem changedRequestCount_le_unsettled (dstSet : Nat) (asc : Bool) (iter : List BindingSlot)
    (bs : List ModuleBinding) :
    changedRequestCount dstSet asc bs iter ≤ unsettledCount dstSet asc bs := by
  induction iter generalizing bs with
  | nil => simp [changedRequestCount]
  | cons s rest ih =>
    unfold changedRequestCount
    have h1 := ih (AssignBindingSlots bs [s] dstSet asc).2
    have h2 := unsettledCount_step dstSet asc bs s
    omega

/-- C19: the value that `AssignBindingSlots` returns is at most the number of
requests and at most the number of entries of the layout, and so is the number
of requests that changed an entry: an entry that a request has changed holds
the destination of the call, so a later request for the same slot does not
change it again. -/
theorem AssignBindingSlots_count_le (bindings_ : List ModuleBinding) (iter : List BindingSlot)
    (dstSet : Nat) (ascending : Bool) :
    (AssignBindingSlots bindings_ iter dstSet ascending).1 ≤ iter.length ∧
    (AssignBindingSlots bindings_ iter dstSet ascending).1 ≤ bindings_.length ∧
    changedRequestCount dstSet ascending bindings_ iter ≤ iter.length ∧
    changedRequestCount dstSet ascending bindings_ iter ≤ bindings_.length := by
  have h := foldl_assignStep_snd dstSet ascending iter bindings_ 0 (by omega)
  have h1 := changedRequestCount_le dstSet ascending iter bindings_
  have h2 := changedRequestCount_le_unsettled dstSet ascending iter bindings_
  have h3 : unsettledCount dstSet ascending bindings_ ≤ bindings_.length :=
    List.countP_le_length _
  have h4 : (AssignBindingSlots bindings_ iter dstSet ascending).1 ≤
      changedRequestCount dstSet ascending bindings_ iter := by
    unfold AssignBindingSlots
    simp only
    rw [h, Nat.zero_add]
    exact Nat.mod_le _ _
  omega

/-! ## Sorted and searchable after any sequence of calls -/

theorem assignCalls_srcKey (calls : List (List BindingSlot × Nat × Bool))
    (bs : List ModuleBinding) : (assignCalls bs calls).map srcKey = bs.map srcKey := by
  unfold assignCalls
  induction calls generalizing bs with
  | nil => rfl
  | cons call rest ih =>
    rw [List.foldl_cons, ih]
    exact foldl_assignStep_srcKey call.2.1 call.2.2 0 call.1 (bs, 0)

/-- C12: after a successful `BuildFromSpirvModule` and any finite sequence of
`AssignBindingSlots` calls the binding list is in ascending order of
`(srcDescriptorSet, srcBinding)`, and for every entry of the list the binary
search with a request equal to the entry's `(srcDescriptorSet, srcBinding)`
finds an entry with that key. -/
theorem assignCalls_sorted_searchable
    (reflect : SpirvModuleView → SpirvResult × List SpvBindingPoint)
    (bindings_ : List ModuleBinding) (data : List Nat) (size : Nat)
    (calls : List (List BindingSlot × Nat × Bool))
    (hok : (reflect (SpirvModuleView.ofData data size)).1 = SpirvResult.Success) :
    (assignCalls (BuildFromSpirvModule true reflect bindings_ data size).2 calls).Pairwise
      (fun a b => a.srcDescriptorSet < b.srcDescriptorSet ∨
        (a.srcDescriptorSet = b.srcDescriptorSet ∧ a.srcBinding ≤ b.srcBinding)) ∧
    ∀ b ∈ assignCalls (BuildFromSpirvModule true reflect bindings_ data size).2 calls,
      ∃ i e,
        FindInSortedArray
          (assignCalls (BuildFromSpirvModule true reflect bindings_ data size).2 calls)
          (compareSlot ⟨b.srcDescriptorSet, b.srcBinding⟩) = some i ∧
        (assignCalls (BuildFromSpirvModule true reflect bindings_ data size).2 calls)[i]? =
          some e ∧
        e.srcDescriptorSet = b.srcDescriptorSet ∧ e.srcBinding = b.srcBinding := by
  rw [BuildFromSpirvModule_of_success reflect bindings_ data size hok]
  have hbuilt : SortedBySrc
      (stdSort ((reflect (SpirvModuleView.ofData data size)).2.map identityBinding)) := by
    apply pairwise_srcKeyLe_of_identity _ _ (stdSort_sorted _)
    intro b hb
    obtain ⟨p, _, rfl⟩ := List.mem_map.1 ((stdSort_perm _).mem_iff.1 hb)
    rfl
  have hsorted : SortedBySrc (assignCalls
      (stdSort ((reflect (SpirvModuleView.ofData data size)).2.map identityBinding)) calls) :=
    SortedBySrc_congr _ _ (assignCalls_srcKey calls _) hbuilt
  refine ⟨hsorted, fun b hb => ?_⟩
  obtain ⟨k, hk⟩ := List.mem_iff_getElem?.1 hb
  obtain ⟨i, e, hf, he, hm⟩ := FindInSortedArray_complete _ ⟨b.srcDescriptorSet, b.srcBinding⟩
    hsorted k b hk ⟨rfl, rfl⟩
  exact ⟨i, e, hf, he, hm.1.symm, hm.2.symm⟩

/-- Witness for C12: the sample layout after an ascending and a plain call. -/
theorem assignCalls_sorted_searchable_witness :
    (sampleReflect (SpirvModuleView.ofData sampleData 48)).1 = SpirvResult.Success ∧
    assignCalls (BuildFromSpirvModule true sampleReflect [] sampleData 48).2
        [([⟨0, 1⟩, ⟨1, 0⟩], 3, true), ([⟨0, 0⟩], 8, false)] =
      [⟨0, 0, 8, 0, 3, 4⟩, ⟨0, 1, 3, 0, 7, 8⟩, ⟨1, 0, 3, 0, 10, 11⟩] ∧
    (assignCalls (BuildFromSpirvModule true sampleReflect [] sampleData 48).2
        [([⟨0, 1⟩, ⟨1, 0⟩], 3, true), ([⟨0, 0⟩], 8, false)]).Pairwise
      (fun a b => a.srcDescriptorSet < b.srcDescriptorSet ∨
        (a.srcDescriptorSet = b.srcDescriptorSet ∧ a.srcBinding ≤ b.srcBinding)) :=
  ⟨rfl, by decide,
    (assignCalls_sorted_searchable sampleReflect [] sampleData 48
      [([⟨0, 1⟩, ⟨1, 0⟩], 3, true), ([⟨0, 0⟩], 8, false)] rfl).1⟩

/-! ## Reflection order and shader composition -/

theorem resourceViewLe_iff (rank : ResourceType → Nat) (a b : ResourceView) :
    resourceViewLe rank a b ↔
      (rank b.type < rank a.type ∨ (rank a.type = rank b.type ∧ b.slot ≤ a.slot)) := by
  unfold resourceViewLe resourceViewBefore
  split_ifs with h1 h2
  · simp; omega
  · simp; omega
  · simp; omega

instance (rank : ResourceType → Nat) : IsTotal ResourceView (resourceViewLe rank) :=
  ⟨fun a b => by rw [resourceViewLe_iff, resourceViewLe_iff]; omega⟩

instance (rank : ResourceType → Nat) : IsTrans ResourceView (resourceViewLe rank) :=
  ⟨fun a b c => by rw [resourceViewLe_iff, resourceViewLe_iff, resourceViewLe_iff]; omega⟩

/-- C14: `FinalizeShaderReflection` returns a rearrangement of the resource
views in which the resource type descends and, within one type, the binding
slot descends; for the input `{Texture,1}, {ConstantBuffer,2}, {Texture,0},
{ConstantBuffer,0}` and an order of the types in which the constant buffer is
above the texture, the result is `ConstantBuffer:2, ConstantBuffer:0,
Texture:1, Texture:0`. -/
theorem FinalizeShaderReflection_order (rank : ResourceType → Nat)
    (hrank : rank ResourceType.Texture < rank ResourceType.ConstantBuffer) :
    (∀ resourceViews : List ResourceView,
      (FinalizeShaderReflection rank resourceViews).Perm resourceViews ∧
      (FinalizeShaderReflection rank resourceViews).Pairwise
        (fun a b => rank b.type < rank a.type ∨ (rank a.type = rank b.type ∧ b.slot ≤ a.slot))) ∧
    FinalizeShaderReflection rank
        [⟨ResourceType.Texture, 1⟩, ⟨ResourceType.ConstantBuffer, 2⟩,
          ⟨ResourceType.Texture, 0⟩, ⟨ResourceType.ConstantBuffer, 0⟩] =
      [⟨ResourceType.ConstantBuffer, 2⟩, ⟨ResourceType.ConstantBuffer, 0⟩,
        ⟨ResourceType.Texture, 1⟩, ⟨ResourceType.Texture, 0⟩] := by
  constructor
  · intro resourceViews
    refine ⟨List.perm_insertionSort _ _, ?_⟩
    have h : (FinalizeShaderReflection rank resourceViews).Pairwise (resourceViewLe rank) :=
      List.sorted_insertionSort _ _
    exact h.imp (fun {a b} hab => (resourceViewLe_iff rank a b).1 hab)
  · have h1 : ¬ rank ResourceType.ConstantBuffer < rank ResourceType.Texture := by omega
    simp [FinalizeShaderReflection, List.insertionSort, List.orderedInsert, resourceViewLe,
      resourceViewBefore, hrank, h1]

/-- Witness for C14: the sample order of the resource types. -/
theorem FinalizeShaderReflection_order_witness :
    sampleRank ResourceType.Texture < sampleRank ResourceType.ConstantBuffer ∧
    FinalizeShaderReflection sampleRank
        [⟨ResourceType.Texture, 1⟩, ⟨ResourceType.ConstantBuffer, 2⟩,
          ⟨ResourceType.Texture, 0⟩, ⟨ResourceType.ConstantBuffer, 0⟩] =
      [⟨ResourceType.ConstantBuffer, 2⟩, ⟨ResourceType.ConstantBuffer, 0⟩,
        ⟨ResourceType.Texture, 1⟩, ⟨ResourceType.Texture, 0⟩] :=
  ⟨by decide, (FinalizeShaderReflection_order sampleRank (by decide)).2⟩

theorem compositionError_of_mixed (shaders : List (Option ShaderStage))
    (hcompute : some ShaderStage.Compute ∈ shaders)
    (hother : ∃ s, s ≠ ShaderStage.Compute ∧ some s ∈ shaders) :
    compositionError shaders = LinkError.InvalidComposition := by
  obtain ⟨s, hs, hmem⟩ := hother
  unfold compositionError
  have h1 : ShaderStage.Compute ∈ shaders.reduceOption := List.reduceOption_mem_iff.2 hcompute
  have h2 : shaders.reduceOption.any (fun s => s != ShaderStage.Compute) = true :=
    List.any_eq_true.2 ⟨s, List.reduceOption_mem_iff.2 hmem, by simpa using hs⟩
  simp only [h1, h2, and_self, if_true]

theorem compositionError_of_duplicate (shaders : List (Option ShaderStage)) (s : ShaderStage)
    (hmem : some s ∈ shaders) :
    compositionError (shaders ++ [some s]) = LinkError.InvalidComposition ∨
      compositionError (shaders ++ [some s]) = LinkError.TooManyAttachments := by
  unfold compositionError
  have hdup : ¬ (shaders ++ [some s]).reduceOption.Nodup := by
    rw [List.reduceOption_append]
    intro hnodup
    have hdisj := (List.nodup_append.1 hnodup).2.2
    exact hdisj (List.reduceOption_mem_iff.2 hmem) (by simp)
  simp only
  split_ifs with h1
  · exact Or.inl rfl
  · exact Or.inr rfl

theorem compositionError_of_no_vertex (shaders : List (Option ShaderStage))
    (hnodup : shaders.reduceOption.Nodup) (hcompute : some ShaderStage.Compute ∉ shaders)
    (hvertex : some ShaderStage.Vertex ∉ shaders) (hsome : ∃ s, some s ∈ shaders) :
    compositionError shaders = LinkError.IncompleteAttachments := by
  obtain ⟨s, hmem⟩ := hsome
  unfold compositionError
  have h1 : ShaderStage.Compute ∉ shaders.reduceOption :=
    fun h => hcompute (List.reduceOption_mem_iff.1 h)
  have h3 : ShaderStage.Vertex ∉ shaders.reduceOption :=
    fun h => hvertex (List.reduceOption_mem_iff.1 h)
  have h2 : shaders.reduceOption.any (fun s => s != ShaderStage.Compute) = true := by
    refine List.any_eq_true.2 ⟨s, List.reduceOption_mem_iff.2 hmem, ?_⟩
    have hne : s ≠ ShaderStage.Compute := fun e => hcompute (e ▸ hmem)
    simpa using hne
  simp only [h1, h2, h3, hnodup, false_and, if_false, not_true_eq_false, not_false_eq_true,
    and_self, if_true]

/-- C15: the composition rules give `InvalidComposition` to every array of
attachments that holds a compute shader together with a shader of another
stage, for example compute with vertex or compute with fragment; they accept a
vertex shader together with a fragment shader; an array to which a shader of an
already attached stage is added is rejected; and a graphics composition without
a vertex shader, for example a fragment shader alone, gives
`IncompleteAttachments`. `ValidateShaderComposition` is true exactly when there
is no error. -/
theorem compositionError_rules :
    (∀ shaders : List (Option ShaderStage), some ShaderStage.Compute ∈ shaders →
      (∃ s, s ≠ ShaderStage.Compute ∧ some s ∈ shaders) →
      compositionError shaders = LinkError.InvalidComposition ∧
        ValidateShaderComposition shaders = false) ∧
    compositionError [some ShaderStage.Compute, some ShaderStage.Vertex] =
      LinkError.InvalidComposition ∧
    compositionError [some ShaderStage.Compute, some ShaderStage.Fragment] =
      LinkError.InvalidComposition ∧
    compositionError [some ShaderStage.Vertex, some ShaderStage.Fragment] = LinkError.NoError ∧
    ValidateShaderComposition [some ShaderStage.Vertex, some ShaderStage.Fragment] = true ∧
    (∀ (shaders : List (Option ShaderStage)) (s : ShaderStage), some s ∈ shaders →
      compositionError (shaders ++ [some s]) ≠ LinkError.NoError ∧
        ValidateShaderComposition (shaders ++ [some s]) = false) ∧
    (∀ shaders : List (Option ShaderStage), shaders.reduceOption.Nodup →
      some ShaderStage.Compute ∉ shaders → some ShaderStage.Vertex ∉ shaders →
      (∃ s, some s ∈ shaders) →
      compositionError shaders = LinkError.IncompleteAttachments) ∧
    compositionError [some ShaderStage.Fragment] = LinkError.IncompleteAttachments := by
  refine ⟨fun shaders h1 h2 => ?_, by decide, by decide, by decide, by decide,
    fun shaders s hmem => ?_, compositionError_of_no_vertex, by decide⟩
  · have h := compositionError_of_mixed shaders h1 h2
    exact ⟨h, by unfold ValidateShaderComposition; rw [h]; decide⟩
  · have h : compositionError (shaders ++ [some s]) ≠ LinkError.NoError := by
      rcases compositionError_of_duplicate shaders s hmem with h | h <;> rw [h] <;> decide
    exact ⟨h, by unfold ValidateShaderComposition; simp [h]⟩

/-- Witness for C15: a compute shader, an empty attachment slot and a geometry
shader. -/
theorem compositionError_rules_witness :
    some ShaderStage.Compute ∈ [some ShaderStage.Compute, none, some ShaderStage.Geometry] ∧
    (∃ s, s ≠ ShaderStage.Compute ∧
      some s ∈ [some ShaderStage.Compute, none, some ShaderStage.Geometry]) ∧
    compositionError [some ShaderStage.Compute, none, some ShaderStage.Geometry] =
      LinkError.InvalidComposition ∧
    ValidateShaderComposition [some ShaderStage.Compute, none, some ShaderStage.Geometry] =
      false :=
  ⟨by decide, ⟨ShaderStage.Geometry, by decide, by decide⟩,
    compositionError_rules.1 [some ShaderStage.Compute, none, some ShaderStage.Geometry]
      (by decide) ⟨ShaderStage.Geometry, by decide, by decide⟩⟩

/-- Witness for C16: the sample module, whose first word is the magic number
`0x07230203`, read into a zeroed header. -/
theorem ReadHeader_output_witness :
    ((SpirvModule.mk sampleData).ReadHeader 119734787 ⟨0, 0, 0, 0, 0⟩).1 = SpirvResult.Success ∧
    ((SpirvModule.mk sampleData).ReadHeader 119734787 ⟨0, 0, 0, 0, 0⟩).2 =
      ⟨119734787, 65536, 0, 0, 0⟩ ∧
    sampleData[0]? =
      some ((SpirvModule.mk sampleData).ReadHeader 119734787 ⟨0, 0, 0, 0, 0⟩).2.spirvMagic ∧
    ((SpirvModule.mk [119734787, 65536]).ReadHeader 119734787 ⟨1, 2, 3, 4, 5⟩).1 ≠
      SpirvResult.Success ∧
    ((SpirvModule.mk [119734787, 65536]).ReadHeader 119734787 ⟨1, 2, 3, 4, 5⟩).2 =
      ⟨1, 2, 3, 4, 5⟩ :=
  ⟨by decide, by decide,
    ((ReadHeader_output 119734787 sampleData ⟨0, 0, 0, 0, 0⟩).1 (by decide)).1,
    by decide,
    (ReadHeader_output 119734787 [119734787, 65536] ⟨1, 2, 3, 4, 5⟩).2.1 (by decide)⟩

end LLGL
